import Mathlib

/-!
Verification development for the streaming CSV/PAS → HL7 batch-processing
pipeline (modules `file_processor.py`, `main.py`, `logger.py`,
`hl7_utilities.py`, `config_manager.py`).

The Python code is shallowly embedded: pure functions become Lean
functions, generators become functions returning the list of yielded
values, exceptions become `Except`/`Option` values, and the ambient
effects of the external collaborators (HL7 generation, file saving,
decoding, worker crashes, wait-set completion order) are supplied by
explicit oracle parameters.  Every definition follows the control flow of
the corresponding Python source line by line.
-/

namespace Pipeline

/-- Log severities, as used by `AppLogger.log` (`logger.py`). -/
inductive Level where
  | DEBUG | INFO | WARNING | ERROR | CRITICAL
  deriving DecidableEq, Repr

/-- A Python exception value (only its identity matters to the pipeline). -/
inductive PyExc where
  | unicodeDecodeError
  | attributeError (attr : String)
  | other (msg : String)
  deriving DecidableEq, Repr

/-! ## Batch Reader (`file_processor._read_file_batches`, lines 282-328)

A text file is modelled as the list of its (decoded) lines, without the
trailing newline characters.  `csv.reader` on unquoted input yields, for
each line, the list of comma-separated fields; a completely blank line
yields the empty list `[]` (it is *not* skipped by `csv.reader`). -/

/-- Characters removed by Python `str.strip()`. -/
def isPySpace (c : Char) : Bool :=
  c = ' ' || c = '\t' || c = '\n' || c = '\r' || c = '\x0b' || c = '\x0c'

/-- Python `str.strip()` (whitespace at both ends), on the character list. -/
def stripChars (s : List Char) : List Char :=
  ((s.dropWhile isPySpace).reverse.dropWhile isPySpace).reverse

/-- Python `str.strip()` (whitespace at both ends). -/
def pyStrip (s : String) : String := ⟨stripChars s.data⟩

/-- Python `str.split(sep)` for a one-character separator, on the
character list: always returns at least one group, `"".split(sep) = [""]`. -/
def splitOnChar (sep : Char) : List Char → List (List Char)
  | [] => [[]]
  | c :: rest =>
      match splitOnChar sep rest with
      | [] => [[c]]
      | g :: gs => if c = sep then [] :: g :: gs else (c :: g) :: gs

/-- Python `str.split(sep)` for a one-character separator (the pipeline's
separators are the single characters `,` and the configured PAS separator,
`'|'` by default). -/
def pySplit (sep : Char) (s : String) : List String :=
  (splitOnChar sep s.data).map (fun g => ⟨g⟩)

/-- One parsed row of `csv.reader` for unquoted input: a blank line gives
the empty record `[]`, any other line is split on `','`. -/
def csvParseLine (line : String) : List String :=
  if line = "" then [] else pySplit ',' line

/-- The batch-accumulation loop shared by both branches of
`_read_file_batches`: `batch.append(record); if len(batch) >= batch_size:
yield batch; batch = []`, with a final `if batch: yield batch`. -/
def chunkLoop (batchSize : Nat) (acc : List α) : List α → List (List α)
  | [] => if acc.isEmpty then [] else [acc]
  | r :: rs =>
      let acc' := acc ++ [r]
      if batchSize ≤ acc'.length then acc' :: chunkLoop batchSize [] rs
      else chunkLoop batchSize acc' rs

/-- File variants handled by the reader. -/
inductive FileType where
  | csv | pas
  deriving DecidableEq, Repr

/-- The records the PAS branch builds out of the file's lines: blank lines
(`not line.strip()`) are skipped, every other line is stripped and split on
the separator (`str.split` always returns a non-empty list, so the
`if record_fields:` test always passes). -/
def pasRecords (pasSeparator : Char) (lines : List String) : List (List String) :=
  (lines.filter (fun l => pyStrip l ≠ "")).map (fun l => pySplit pasSeparator (pyStrip l))

/-- The records the CSV branch reads after consuming the header row:
every `csv.reader` row of the remaining lines, including the empty `[]`
rows produced by blank lines. -/
def csvDataRecords (lines : List String) : List (List String) :=
  (lines.drop 1).map csvParseLine

/-- `_read_file_batches` (`file_processor.py` lines 282-328), as the list
of batches the generator yields for a fully decoded file.  The CSV branch
first executes `next(reader)`; on an empty file this raises
`StopIteration`, which the generator turns into an immediate `return`. -/
def readFileBatches (fileType : FileType) (batchSize : Nat) (pasSeparator : Char)
    (lines : List String) : List (List (List String)) :=
  match fileType with
  | .csv =>
      match lines with
      | [] => []
      | _header :: rest => chunkLoop batchSize [] (rest.map csvParseLine)
  | .pas => chunkLoop batchSize [] (pasRecords pasSeparator lines)

/-- Number of non-header, non-blank lines of a file — the claim's `N` for
the reader contract (spec §4.1 / §8). -/
def nonBlankDataCount (fileType : FileType) (lines : List String) : Nat :=
  match fileType with
  | .csv => ((lines.drop 1).filter (fun l => pyStrip l ≠ "")).length
  | .pas => (lines.filter (fun l => pyStrip l ≠ "")).length

/-! Basic facts about `chunkLoop`. -/

/-- The records a file contains according to the (amended) reader
contract: for CSV every non-header `csv.reader` row (blank lines included,
as empty records); for PAS every non-blank line split on the separator. -/
def readerRecords (fileType : FileType) (sep : Char) (lines : List String) :
    List (List String) :=
  match fileType with
  | .csv => csvDataRecords lines
  | .pas => pasRecords sep lines

/-! ## Encoding-fallback reader (`file_processor.get_file_reader_generator`,
lines 331-348)

Decoding is modelled abstractly: reading a file under one choice of
encoding produces the list of lines that decode successfully and a flag
saying whether a `UnicodeDecodeError` is raised mid-stream after them
(with `errors='replace'` the flag is `false` in every real run; the flag
makes the handler's behaviour statable).  A generator that raises while
pulling the next line has already yielded every *full* batch accumulated
from the decoded prefix; the pending partial batch and the final
`if batch: yield batch` are lost to the exception. -/

/-- The batch-accumulation loop cut off by a mid-stream exception: only
the complete (size-`batchSize`) batches are yielded, the trailing partial
accumulator is abandoned. -/
def fullChunksLoop (batchSize : Nat) (acc : List α) : List α → List (List α)
  | [] => []
  | r :: rs =>
      let acc' := acc ++ [r]
      if batchSize ≤ acc'.length then acc' :: fullChunksLoop batchSize [] rs
      else fullChunksLoop batchSize acc' rs

/-- Result of running a generator to exhaustion or to its first uncaught
exception. -/
structure GenRun where
  yielded : List (List (List String))
  raised : Bool
  deriving DecidableEq, Repr

/-- One attempt of `_read_file_batches` under a decode outcome
(`prefixLines` decoded, then a mid-stream `UnicodeDecodeError` iff
`failed`).  For CSV, a failure before any line decodes hits the
`next(reader)` call itself and propagates out of the generator. -/
def readFileBatchesAttempt (fileType : FileType) (batchSize : Nat) (sep : Char)
    (prefixLines : List String) (failed : Bool) : GenRun :=
  if failed then
    match fileType with
    | .csv =>
        match prefixLines with
        | [] => ⟨[], true⟩
        | _header :: rest => ⟨fullChunksLoop batchSize [] (rest.map csvParseLine), true⟩
    | .pas => ⟨fullChunksLoop batchSize [] (pasRecords sep prefixLines), true⟩
  else ⟨readFileBatches fileType batchSize sep prefixLines, false⟩

/-- `get_file_reader_generator` (`file_processor.py` lines 331-348): the
first attempt uses the detected encoding; a `UnicodeDecodeError` escaping
it is caught and a second `yield from _read_file_batches(..., 'utf-8', ...)`
runs — *appending* its batches after the ones already yielded.  A failure
of the second attempt is uncaught. -/
def getFileReaderGenerator (fileType : FileType) (batchSize : Nat) (sep : Char)
    (attempt1 attempt2 : List String × Bool) : GenRun :=
  let r1 := readFileBatchesAttempt fileType batchSize sep attempt1.1 attempt1.2
  if r1.raised then
    let r2 := readFileBatchesAttempt fileType batchSize sep attempt2.1 attempt2.2
    ⟨r1.yielded ++ r2.yielded, r2.raised⟩
  else r1

/-! ## Log channel acquisition (`file_processor.process_file_streaming`
lines 431-454, `file_processor._worker_init` lines 57-65, `logger.AppLogger`)

`process_file_streaming` obtains the shared log queue with
`log_queue = AppLogger.get_queue()` inside its `try:` block, before
creating the `ProcessPoolExecutor`.  Attribute lookup on the `AppLogger`
class is modelled against the attributes the class actually defines in
`logger.py`; a missing attribute raises `AttributeError`, which the
function's catch-all `except Exception` turns into the
`"Failed to process ..."` ERROR branch. -/

/-- The attributes defined on the `AppLogger` class in `logger.py`
(methods, classmethods, staticmethods, and class variables). -/
def appLoggerClassAttrs : List String :=
  ["_is_main_process", "_worker_setup_done", "__init__", "_setup_main_process",
   "setup_worker", "consolidate_logs", "log"]

/-- Python class-attribute lookup: `AttributeError` when absent. -/
def pyClassGetAttr (attrs : List String) (name : String) : Except PyExc Unit :=
  if name ∈ attrs then .ok () else .error (.attributeError name)

/-- How far `process_file_streaming` gets for a given input file. -/
inductive StreamStart where
  | fileNotFound
  | caughtError (exc : PyExc)
  | reachedSubmission
  deriving DecidableEq, Repr

/-- The prologue of `process_file_streaming` (`file_processor.py` lines
410-441): the existence check, then — inside the `try:` — config reads,
encoding detection and generator creation (total collaborator calls),
then `log_queue = AppLogger.get_queue()`; only if that call returns does
control reach the executor and the batch-submission loop.  An exception
instead lands in the catch-all `except Exception` (lines 471-472). -/
def processFileStreamingStart (fileExists : Bool) : StreamStart :=
  if !fileExists then .fileNotFound
  else
    match pyClassGetAttr appLoggerClassAttrs "get_queue" with
    | .error e => .caughtError e
    | .ok _ => .reachedSubmission

/-! ## Bounded scheduler (`file_processor.process_file_streaming`,
lines 436-465; `_process_completed_futures` lines 351-359;
`_handle_failed_batch` lines 362-369)

Futures are modelled explicitly: each carries the submitted batch payload
and id (the `future.batch_data` attribute set at submission) and a flag
saying whether its execution raises (worker crash / exception escaping
`process_record_batch`).  `wait(futures, return_when=FIRST_COMPLETED)` is
modelled by an oracle mask choosing which in-flight futures resolve at
each wait call; `FIRST_COMPLETED` guarantees at least one resolves when
the set is non-empty, which the model enforces by falling back to the
first future when the mask selects none. -/

/-- A submitted, not-yet-harvested future. -/
structure Fut (α : Type) where
  batch : α
  batchId : Nat
  crashes : Bool
  deriving DecidableEq, Repr

/-- Split the in-flight list by a completion mask (`true` = resolved at
this wake-up): returns `(done, not_done)`. -/
def applyMask : List Bool → List (Fut α) → List (Fut α) × List (Fut α)
  | _, [] => ([], [])
  | [], f :: fs => ([], f :: fs)
  | b :: ms, f :: fs =>
      let r := applyMask ms fs
      if b then (f :: r.1, r.2) else (r.1, f :: r.2)

/-- `wait(futures, return_when=FIRST_COMPLETED)`: on a non-empty set it
blocks until at least one future resolves; on the empty set it returns
immediately with nothing done. -/
def waitFirstCompleted (mask : List Bool) (futs : List (Fut α)) :
    List (Fut α) × List (Fut α) :=
  match futs with
  | [] => ([], [])
  | f :: fs =>
      let r := applyMask mask (f :: fs)
      if r.1.isEmpty then ([f], fs) else r

/-- The submission loop (`file_processor.py` lines 443-454): for each
batch from the generator, increment the counter, run the backpressure
check — when `len(futures) >= MAX_PENDING_BATCHES`, wait for
`FIRST_COMPLETED` and hand the done futures to
`_process_completed_futures`, which forwards result logs and silently
`pass`es over futures whose `.result()` raises — then submit and attach
`batch_data`.  Returns the remaining in-flight futures, the next wait
index, and the trace of in-flight sizes after every mutation. -/
def submitPhase (maxPending : Nat) (masks : Nat → List Bool) :
    List (α × Bool) → List (Fut α) → Nat → Nat →
    List (Fut α) × Nat × List Nat
  | [], futs, _counter, waitIdx => (futs, waitIdx, [])
  | (b, cr) :: rest, futs, counter, waitIdx =>
      if maxPending ≤ futs.length then
        let nd := (waitFirstCompleted (masks waitIdx) futs).2
        let futs' := nd ++ [⟨b, counter + 1, cr⟩]
        let r := submitPhase maxPending masks rest futs' (counter + 1) (waitIdx + 1)
        (r.1, r.2.1, nd.length :: futs'.length :: r.2.2)
      else
        let futs' := futs ++ [⟨b, counter + 1, cr⟩]
        let r := submitPhase maxPending masks rest futs' (counter + 1) waitIdx
        (r.1, r.2.1, futs'.length :: r.2.2)

/-- The final drain (`file_processor.py` lines 457-465): while futures
remain, wait for `FIRST_COMPLETED`; each done future's `.result()` is
read, and one that raises goes through `_handle_failed_batch`, appending
`(batch, batch_id)` to `failed_batches`.  The loop consumes at least one
future per wait, so `fuel = futs.length` always suffices; `done = true`
records that the loop really emptied the in-flight set. -/
def drainPhase (masks : Nat → List Bool) :
    Nat → List (Fut α) → Nat → List (α × Nat) × List Nat × Bool
  | _, [], _ => ([], [], true)
  | 0, _ :: _, _ => ([], [], false)
  | fuel + 1, f :: fs, waitIdx =>
      let d := (waitFirstCompleted (masks waitIdx) (f :: fs)).1
      let nd := (waitFirstCompleted (masks waitIdx) (f :: fs)).2
      let newFailed := (d.filter (fun g => g.crashes)).map (fun g => (g.batch, g.batchId))
      let r := drainPhase masks fuel nd (waitIdx + 1)
      (newFailed ++ r.1, nd.length :: r.2.1, r.2.2)

/-- Result of one `process_file_streaming` scheduling run. -/
structure SchedRun (α : Type) where
  failed : List (α × Nat)
  trace : List Nat
  drainDone : Bool
  deriving Repr

/-- The whole bounded-parallelism loop of `process_file_streaming`
(lines 436-465): `MAX_PENDING_BATCHES = num_workers * 2`, submission with
backpressure, then the drain; `batches` carries each batch with a flag
saying whether its execution raises. -/
def processFileStreamingRun (numWorkers : Nat) (masks : Nat → List Bool)
    (batches : List (α × Bool)) : SchedRun α :=
  let maxPending := numWorkers * 2
  let s := submitPhase maxPending masks batches [] 0 0
  let d := drainPhase masks s.1.length s.1 s.2.1
  ⟨d.1, 0 :: (s.2.2 ++ d.2.1), d.2.2⟩

/-! ## Transform unit (`file_processor.process_record_batch`, lines 180-279,
with `_map_record_to_patient` lines 127-155 and `_validate_patient` lines
158-177)

Batch elements are Python values (`isinstance(record, list)` is a real
check).  The field mapping `_idx` — the module-level cache of
`config.get_patient_mapping()` — is a parameter: one optional index per
patient attribute, `record[_idx[k]]` raising `IndexError` when the index
is out of range.  `calculate_age` is a total function (its own
`try/except` returns `-1` on any failure) whose value depends on today's
date, so it is abstracted as an oracle `String → Int`.  The two HL7
generators and the batch save are external collaborators whose outcome
per call (a message, a falsy result, or a raised exception) is supplied
by the oracle; a raised outcome exercises the function's own handlers. -/

/-- An element of a batch as a Python value. -/
inductive PyObj where
  | list (fields : List String)
  | other
  deriving DecidableEq, Repr

/-- The patient attributes built by `_map_record_to_patient`. -/
structure Patient where
  internal_patient_number : String
  assigning_authority : String
  hospital_case_number : String
  nhs_number : String
  nhs_verification_status : String
  surname : String
  forename : String
  date_of_birth : String
  sex : String
  patient_title : String
  address_line_1 : String
  address_line_2 : String
  address_line_3 : String
  address_line_4 : String
  address_line_5 : String
  postcode : String
  death_indicator : String
  date_of_death : String
  registered_gp_code : String
  ethnic_code : String
  home_phone : String
  work_phone : String
  mobile_phone : String
  registered_gp : String
  registered_practice : String
  deriving DecidableEq, Repr

/-- The `_idx` mapping (`file_processor.py` lines 27-53): one optional
record index per patient attribute. -/
structure PatientMapping where
  internal_patient_number : Option Nat
  assigning_authority : Option Nat
  hospital_case_number : Option Nat
  nhs_number : Option Nat
  nhs_verification_status : Option Nat
  surname : Option Nat
  forename : Option Nat
  date_of_birth : Option Nat
  sex : Option Nat
  patient_title : Option Nat
  address_line_1 : Option Nat
  address_line_2 : Option Nat
  address_line_3 : Option Nat
  address_line_4 : Option Nat
  address_line_5 : Option Nat
  postcode : Option Nat
  death_indicator : Option Nat
  date_of_death : Option Nat
  registered_gp_code : Option Nat
  ethnic_code : Option Nat
  home_phone : Option Nat
  work_phone : Option Nat
  mobile_phone : Option Nat
  registered_gp : Option Nat
  registered_practice : Option Nat
  deriving DecidableEq, Repr

/-- Python list subscription: `IndexError` out of range (the mapping's
indices are non-negative). -/
def pyIndex (record : List String) (i : Nat) : Except PyExc String :=
  match record.get? i with
  | some v => .ok v
  | none => .error (.other "IndexError")

/-- `record[_idx[k]] if _idx[k] is not None else ""`. -/
def mapField (record : List String) (oi : Option Nat) : Except PyExc String :=
  match oi with
  | none => .ok ""
  | some i => pyIndex record i

/-- `_map_record_to_patient` (`file_processor.py` lines 127-155). -/
def mapRecordToPatient (idx : PatientMapping) (record : List String) :
    Except PyExc Patient := do
  let v01 ← mapField record idx.internal_patient_number
  let v02 ← mapField record idx.assigning_authority
  let v03 ← mapField record idx.hospital_case_number
  let v04 ← mapField record idx.nhs_number
  let v05 ← mapField record idx.nhs_verification_status
  let v06 ← mapField record idx.surname
  let v07 ← mapField record idx.forename
  let v08 ← mapField record idx.date_of_birth
  let v09 ← mapField record idx.sex
  let v10 ← mapField record idx.patient_title
  let v11 ← mapField record idx.address_line_1
  let v12 ← mapField record idx.address_line_2
  let v13 ← mapField record idx.address_line_3
  let v14 ← mapField record idx.address_line_4
  let v15 ← mapField record idx.address_line_5
  let v16 ← mapField record idx.postcode
  let v17 ← mapField record idx.death_indicator
  let v18 ← mapField record idx.date_of_death
  let v19 ← mapField record idx.registered_gp_code
  let v20 ← mapField record idx.ethnic_code
  let v21 ← mapField record idx.home_phone
  let v22 ← mapField record idx.work_phone
  let v23 ← mapField record idx.mobile_phone
  let v24 ← mapField record idx.registered_gp
  let v25 ← mapField record idx.registered_practice
  return ⟨v01, v02, v03, v04, v05, v06, v07, v08, v09, v10, v11, v12, v13,
    v14, v15, v16, v17, v18, v19, v20, v21, v22, v23, v24, v25⟩

/-- The reasons `_validate_patient` can return. -/
inductive SkipReason where
  | missingSurname
  | ageOver112
  | dodOver2Years
  | excluded (caseNumber : String)
  deriving DecidableEq, Repr

/-- `_validate_patient` (`file_processor.py` lines 158-177), with Python
string truthiness (`not s` ⟺ `s = ""`). -/
def validatePatient (ageOf : String → Int) (excl : List String) (p : Patient) :
    Bool × Option SkipReason :=
  if p.surname = "" ∨ pyStrip p.surname = "" then (false, some .missingSurname)
  else if p.date_of_birth ≠ "" ∧ p.date_of_death = "" ∧ 112 < ageOf p.date_of_birth then
    (false, some .ageOver112)
  else if p.death_indicator = "Y" ∧ p.date_of_death ≠ "" ∧ 2 < ageOf p.date_of_death then
    (false, some .dodOver2Years)
  else if p.hospital_case_number ∈ excl then (false, some (.excluded p.hospital_case_number))
  else (true, none)

/-- Oracle for the external collaborators reached from
`process_record_batch`: `calculate_age`'s value, the outcome of
`create_adt_message_fast` / `create_adt_message` per record index (a
result, a falsy result, or a raised exception), and the outcome of
`save_hl7_messages_batch`. -/
structure BatchOracle where
  ageOf : String → Int
  fastGen : Nat → Except PyExc (Option String)
  legacyGen : Nat → Except PyExc (Option String)
  save : Except PyExc Unit

/-- Python truthiness of the generators' return value (`if not hl7_message`):
`None` and `""` are falsy. -/
def pyTruthyMsg : Option String → Bool
  | none => false
  | some s => s ≠ ""

/-- Outcome of the body of one iteration of the record loop (lines
203-250): which accounting bucket the record lands in, what is logged,
and whether the iteration's `try` caught a raised exception. -/
inductive RecOutcome where
  | notList
  | badFieldCount (patientId : String) (found : Nat)
  | skipped (patientNum : String) (reason : SkipReason)
  | createFailed (patientNum : String)
  | ok (msg : String)
  | raised (patientId : String) (exc : PyExc)
  deriving DecidableEq, Repr

/-- One iteration of the record loop of `process_record_batch` (lines
203-250): the `isinstance` check, the strict 26-field check, field
stripping, mapping, business validation, HL7 generation with legacy
fallback; a raised exception from mapping or generation is the `.raised`
outcome (handled by the `except` at lines 248-250). -/
def processOneRecord (idx : PatientMapping) (orc : BatchOracle) (excl : List String)
    (recIdx : Nat) (recObj : PyObj) : RecOutcome :=
  match recObj with
  | .other => .notList
  | .list record =>
      if record.length ≠ 26 then
        .badFieldCount ((record.get? 1).getD "UNKNOWN") record.length
      else
        let stripped := record.map (fun f => pyStrip f)
        let pid := (stripped.get? 1).getD "UNKNOWN"
        match mapRecordToPatient idx stripped with
        | .error e => .raised pid e
        | .ok p =>
            match validatePatient orc.ageOf excl p with
            | (false, reason) => .skipped p.internal_patient_number
                ((reason).getD .missingSurname)
            | (true, _) =>
                match orc.fastGen recIdx with
                | .error e => .raised pid e
                | .ok fastMsg =>
                    if pyTruthyMsg fastMsg then .ok (fastMsg.getD "")
                    else
                      match orc.legacyGen recIdx with
                      | .error e => .raised pid e
                      | .ok legacyMsg =>
                          if pyTruthyMsg legacyMsg then .ok (legacyMsg.getD "")
                          else .createFailed p.internal_patient_number

/-- Per-batch accounting counters (`stats` dict, line 196). -/
structure BatchStats where
  processed : Nat
  skipped : Nat
  errors : Nat
  deriving DecidableEq, Repr

/-- The log events the embedded pipeline appends, one constructor per
`append`/`logger.log` site, carrying the data the source interpolates
into the message string. -/
inductive LogEvent where
  | startBatch (batchId : String) (n : Nat)
  | invalidRecordNotList (batchId : String) (recIdx : Nat)
  | wrongFieldCount (batchId : String) (recIdx : Nat) (patientId : String) (found : Nat)
  | skipPatient (batchId : String) (recIdx : Nat) (patientNum : String) (reason : SkipReason)
  | hl7CreateFailed (batchId : String) (recIdx : Nat) (patientNum : String)
  | recordException (batchId : String) (recIdx : Nat) (patientId : String) (exc : PyExc)
  | savedBatch (batchId : String) (n : Nat)
  | saveError (batchId : String) (exc : PyExc)
  | accountingMismatch (batchId : String) (expected accounted processed skipped errors : Nat)
  | batchCompleted (batchId : String) (accounted expected processed skipped errors : Nat)
  | criticalBatchError (batchId : String) (exc : PyExc)
  | retryingBatches (n maxRetries : Nat)
  | retryCallFailed (batchId : Nat) (exc : PyExc)
  | finalFailure (n : Nat)
  deriving DecidableEq, Repr

/-- The level each event is logged at, as written at its source site
(note the `recordException` message *text* begins with `"CRITICAL:"` but
its level argument is `"ERROR"`). -/
def LogEvent.level : LogEvent → Level
  | .startBatch .. => .INFO
  | .invalidRecordNotList .. => .ERROR
  | .wrongFieldCount .. => .ERROR
  | .skipPatient .. => .WARNING
  | .hl7CreateFailed .. => .ERROR
  | .recordException .. => .ERROR
  | .savedBatch .. => .INFO
  | .saveError .. => .ERROR
  | .accountingMismatch .. => .CRITICAL
  | .batchCompleted .. => .INFO
  | .criticalBatchError .. => .CRITICAL
  | .retryingBatches .. => .WARNING
  | .retryCallFailed .. => .ERROR
  | .finalFailure .. => .ERROR

/-- Result of the record loop: events in append order, the `stats`
counters, and `valid_messages` (the HL7 strings, in record order). -/
structure LoopOut where
  events : List LogEvent
  stats : BatchStats
  messages : List String
  deriving DecidableEq, Repr

/-- The `for record_index, record in enumerate(batch, 1)` loop (lines
203-250): each iteration's outcome adds its event (successes log
nothing) and bumps exactly one counter; `.ok` collects the message. -/
def processLoop (idx : PatientMapping) (orc : BatchOracle) (excl : List String)
    (batchId : String) : Nat → List PyObj → LoopOut
  | _, [] => ⟨[], ⟨0, 0, 0⟩, []⟩
  | i, r :: rs =>
      let rest := processLoop idx orc excl batchId (i + 1) rs
      match processOneRecord idx orc excl i r with
      | .notList =>
          ⟨.invalidRecordNotList batchId i :: rest.events,
            { rest.stats with errors := rest.stats.errors + 1 }, rest.messages⟩
      | .badFieldCount pid n =>
          ⟨.wrongFieldCount batchId i pid n :: rest.events,
            { rest.stats with errors := rest.stats.errors + 1 }, rest.messages⟩
      | .skipped pn reason =>
          ⟨.skipPatient batchId i pn reason :: rest.events,
            { rest.stats with skipped := rest.stats.skipped + 1 }, rest.messages⟩
      | .createFailed pn =>
          ⟨.hl7CreateFailed batchId i pn :: rest.events,
            { rest.stats with errors := rest.stats.errors + 1 }, rest.messages⟩
      | .ok msg =>
          ⟨rest.events,
            { rest.stats with processed := rest.stats.processed + 1 }, msg :: rest.messages⟩
      | .raised pid e =>
          ⟨.recordException batchId i pid e :: rest.events,
            { rest.stats with errors := rest.stats.errors + 1 }, rest.messages⟩

/-- The save section (lines 252-258): nothing when `valid_messages` is
empty; otherwise the inner `try/except` turns the save outcome into the
success INFO event or the `"Error saving batch"` ERROR event. -/
def saveSection (orc : BatchOracle) (batchId : String) (messages : List String) :
    List LogEvent :=
  if messages.isEmpty then []
  else
    match orc.save with
    | .ok _ => [.savedBatch batchId messages.length]
    | .error e => [.saveError batchId e]

/-- The summary section (lines 260-274): the CRITICAL accounting-mismatch
event exactly when `processed + skipped + errors != len(batch)`, then the
completion INFO event. -/
def summarySection (batchId : String) (st : BatchStats) (expected : Nat) :
    List LogEvent :=
  let total := st.processed + st.skipped + st.errors
  (if total ≠ expected then
    [.accountingMismatch batchId expected total st.processed st.skipped st.errors]
   else [])
    ++ [.batchCompleted batchId total expected st.processed st.skipped st.errors]

/-- `process_record_batch` (lines 180-279), returning both the batch log
and the final counters.  The body inside the outer `try` (lines 202-274)
is total — every fallible step is handled where the source handles it —
so the outer `except` (lines 276-277) never fires in the model. -/
def processRecordBatchRun (idx : PatientMapping) (orc : BatchOracle) (excl : List String)
    (batchId : String) (batch : List PyObj) : List LogEvent × BatchStats :=
  let lp := processLoop idx orc excl batchId 1 batch
  (LogEvent.startBatch batchId batch.length
      :: (lp.events ++ saveSection orc batchId lp.messages
          ++ summarySection batchId lp.stats batch.length),
    lp.stats)

/-- The Python return value of `process_record_batch`: the batch log. -/
def process_record_batch (idx : PatientMapping) (orc : BatchOracle) (excl : List String)
    (batchId : String) (batch : List PyObj) : List LogEvent :=
  (processRecordBatchRun idx orc excl batchId batch).1

/-- Recogniser for the accounting-mismatch event. -/
def isMismatchEv : LogEvent → Bool
  | .accountingMismatch .. => true
  | _ => false

/-- Does a log contain a CRITICAL accounting-mismatch event? -/
def hasAccountingMismatch (log : List LogEvent) : Bool :=
  log.any isMismatchEv

/-- Sample field mapping: the explicit positional mapping of
`main.py.process_record_batch` lines 140-168 (`address_line_5` absent). -/
def sampleIdx : PatientMapping :=
  ⟨some 1, some 2, some 3, some 4, some 5, some 6, some 7, some 8, some 9,
   some 10, some 11, some 12, some 13, some 14, none, some 15, some 16,
   some 17, some 18, some 19, some 20, some 21, some 22, some 23, some 24⟩

/-- A collaborator oracle whose calls all succeed. -/
def sampleOracleOk : BatchOracle :=
  ⟨fun _ => 30, fun _ => .ok (some "MSH|1"), fun _ => .ok none, .ok ()⟩

/-- A collaborator oracle whose HL7 generation and save raise. -/
def sampleOracleRaise : BatchOracle :=
  ⟨fun _ => 30, fun _ => .error (.other "boom"), fun _ => .ok none,
   .error (.other "disk full")⟩

/-! ## Retry controller (`file_processor._retry_failed_batches`,
lines 372-396)

The controller re-invokes the transform synchronously, once per
still-failing batch per pass, with the `_retry`-suffixed id.  The
transform call's outcome per pass and batch — a log list, or a raised
exception caught by the controller's `except` — is supplied by an oracle
(matching the spec §4.3 contract `retry(failed_batches, max_retries,
transform)`; the concrete transform, `process_record_batch`, is total per
C8, so in the real code the handler fires only for non-`Exception`-level
failures, but the controller is verified against any raising transform). -/

/-- The id string passed on re-submission:
`f"{file_basename}:{batch_id}_retry"`. -/
def mkRetryId (fileBasename : String) (batchId : Nat) : String :=
  fileBasename ++ ":" ++ toString batchId ++ "_retry"

/-- Does the transform call for `bf` raise during pass `p`? -/
def raisesAt (transform : Nat → α × Nat → Except PyExc (List LogEvent))
    (p : Nat) (bf : α × Nat) : Bool :=
  match transform p bf with
  | .error _ => true
  | .ok _ => false

/-- Result of the retry controller: the final `failed_batches` local,
the logged events, and the calls made (pass index, id string passed). -/
structure RetryOut (α : Type) where
  remaining : List (α × Nat)
  events : List LogEvent
  calls : List (Nat × String)

/-- One pass of the retry loop (lines 383-391): every still-failing batch
is re-invoked; a successful call forwards its logs, a raising call logs
the `"Retry failed"` ERROR and appends the batch to `retry_failed`. -/
def retryPassRun (transform : Nat → α × Nat → Except PyExc (List LogEvent))
    (base : String) (p : Nat) :
    List (α × Nat) → List (α × Nat) × List LogEvent × List (Nat × String)
  | [] => ([], [], [])
  | bf :: rest =>
      let r := retryPassRun transform base p rest
      match transform p bf with
      | .ok logs => (r.1, logs ++ r.2.1, (p, mkRetryId base bf.2) :: r.2.2)
      | .error e =>
          (bf :: r.1, .retryCallFailed bf.2 e :: r.2.1, (p, mkRetryId base bf.2) :: r.2.2)

/-- The `for _ in range(max_retries)` loop (lines 379-393) with its
`if not failed_batches: break`. -/
def retryLoop (transform : Nat → α × Nat → Except PyExc (List LogEvent))
    (base : String) : Nat → Nat → List (α × Nat) → RetryOut α
  | _, 0, fbs => ⟨fbs, [], []⟩
  | p, fuel + 1, fbs =>
      if fbs.isEmpty then ⟨fbs, [], []⟩
      else
        let pr := retryPassRun transform base p fbs
        let r := retryLoop transform base (p + 1) fuel pr.1
        ⟨r.remaining, pr.2.1 ++ r.events, pr.2.2 ++ r.calls⟩

/-- `_retry_failed_batches` (lines 372-396): early return on an empty
list, the WARNING header, up to `max_retries` passes, and the terminal
`"Final failure"` ERROR when batches remain. -/
def retryFailedBatches (transform : Nat → α × Nat → Except PyExc (List LogEvent))
    (base : String) (maxRetries : Nat) (fbs : List (α × Nat)) : RetryOut α :=
  if fbs.isEmpty then ⟨fbs, [], []⟩
  else
    let r := retryLoop transform base 0 maxRetries fbs
    ⟨r.remaining,
      .retryingBatches fbs.length maxRetries
        :: (r.events
            ++ if r.remaining.isEmpty then [] else [.finalFailure r.remaining.length]),
      r.calls⟩

/-- Transform oracle for the retry witness: batch id 1 always raises,
every other call returns an empty log. -/
def sampleTransform : Nat → String × Nat → Except PyExc (List LogEvent) :=
  fun _ bf => if bf.2 = 1 then .error (.other "crash") else .ok []

/-! ## Shared sequence counter (`hl7_utilities.py` lines 13-14 and 292-295)

`sequence_counter = multiprocessing.Value('i', 0)` is shared memory
holding a C `int` — a signed 32-bit cell whose `+= 1` silently wraps
from `2^31 - 1` to `-2^31` — and each save does
`with sequence_counter.get_lock(): sequence_counter.value += 1;
current_sequence = sequence_counter.value`.  The lock serializes the
increment-and-read pairs, so any concurrent run is an interleaving: a
schedule lists whose turn each serialized increment is, and each turn
bumps the shared cell and observes it.  The cell is modelled as its raw
two's-complement bit pattern (a `Nat` below `2^32`, incremented modulo
`2^32`) and the Python-visible `.value` as its signed interpretation. -/

/-- The signed 32-bit value of a raw cell pattern (`raw < 2^32`). -/
def int32Val (raw : Nat) : Int :=
  if raw < 2^31 then (raw : Int) else (raw : Int) - 2^32

/-- Run the serialized increments of a schedule from raw cell value `c`:
each turn increments the cell modulo `2^32` and observes the signed value
of the result. -/
def runCounterSteps : Nat → List w → List (w × Int)
  | _, [] => []
  | c, k :: ks =>
      let c' := (c + 1) % 2^32
      (k, int32Val c') :: runCounterSteps c' ks

/-- The observations of a whole run starting from the initial value 0. -/
def sequenceObservations (schedule : List w) : List (w × Int) :=
  runCounterSteps 0 schedule

/-! ## Log consolidation (`logger.AppLogger.consolidate_logs`, lines 130-169)

At process exit (registered via `atexit` in `_setup_main_process`), the
main process globs `worker_*.log`, iterates `sorted(worker_logs)` — the
paths in ascending string order, i.e. by worker identity — and for each
file, inside a per-file `try`: reads it, appends a
`"--- Logs from Worker {pid} ---"` header plus the content (newline-padded)
to `app.log` when the content is non-blank, then deletes the worker file;
any per-file exception (unreadable file, failed remove) is printed and the
loop continues.  Reading and removing are fallible and modelled per file;
Python's string comparison (code-point lexicographic) and `str.replace`
are implemented on character lists. -/

/-- Code-point lexicographic `≤` on character lists (Python string
comparison). -/
def lexLeChars : List Char → List Char → Bool
  | [], _ => true
  | _ :: _, [] => false
  | c :: cs, d :: ds =>
      if c.toNat < d.toNat then true
      else if d.toNat < c.toNat then false
      else lexLeChars cs ds

/-- Python `a <= b` on strings. -/
def nameLe (a b : String) : Bool := lexLeChars a.data b.data

/-- Python `str.replace(pat, rep)` for a non-empty pattern: replace
non-overlapping occurrences left to right (fuel-structural; fuel =
input length always suffices since each step consumes ≥ 1 character). -/
def replaceCharsAux (pat rep : List Char) : Nat → List Char → List Char
  | _, [] => []
  | 0, s => s
  | fuel + 1, c :: rest =>
      if pat ≠ [] ∧ pat.isPrefixOf (c :: rest) then
        rep ++ replaceCharsAux pat rep fuel (List.drop pat.length (c :: rest))
      else c :: replaceCharsAux pat rep fuel rest

/-- Python `s.replace(pat, rep)`. -/
def pyReplace (s pat rep : String) : String :=
  ⟨replaceCharsAux pat.data rep.data s.data.length s.data⟩

/-- Python `os.path.basename` for slash-separated paths. -/
def pyBasename (s : String) : String :=
  ⟨(splitOnChar '/' s.data).getLastD []⟩

/-- `os.path.basename(path).replace("worker_", "").replace(".log", "")`
(line 151). -/
def workerPid (path : String) : String :=
  pyReplace (pyReplace (pyBasename path) "worker_" "") ".log" ""

/-- `content.endswith('\n')`. -/
def endsWithNewline (c : String) : Bool :=
  match c.data.getLast? with
  | some ch => ch = '\n'
  | none => false

instance : DecidableEq (Except PyExc String) := fun a b =>
  match a, b with
  | .ok x, .ok y => decidable_of_iff (x = y) (by simp)
  | .error x, .error y => decidable_of_iff (x = y) (by simp)
  | .ok _, .error _ => isFalse (fun h => Except.noConfusion h)
  | .error _, .ok _ => isFalse (fun h => Except.noConfusion h)

/-- One worker log file as the consolidation sees it: its path, the
outcome of reading it, and whether `os.remove` raises on it. -/
structure WorkerFile where
  path : String
  read : Except PyExc String
  removeFails : Bool
  deriving DecidableEq, Repr

/-- One run of header-plus-content appended to `app.log`. -/
structure MergeChunk where
  path : String
  pid : String
  content : String
  padded : Bool
  deriving DecidableEq, Repr

/-- Observable result of `consolidate_logs`: the chunks appended to
`app.log` in order, the worker files removed, and the per-file errors
printed (caught, never raised). -/
structure ConsolidateOut where
  chunks : List MergeChunk
  removed : List String
  errors : List String
  deriving DecidableEq, Repr

/-- `list.sort`-style ordered insert (used to model Python `sorted`). -/
def orderedInsertBy (le : α → α → Bool) (x : α) : List α → List α
  | [] => [x]
  | y :: ys => if le x y then x :: y :: ys else y :: orderedInsertBy le x ys

/-- Insertion sort modelling Python `sorted` under a total transitive
comparison. -/
def sortBy (le : α → α → Bool) : List α → List α
  | [] => []
  | x :: xs => orderedInsertBy le x (sortBy le xs)

/-- The `for worker_log_path in sorted(worker_logs)` loop (lines
150-167): a read failure prints an error and moves on (nothing appended,
nothing removed); non-blank content appends a header-tagged chunk, blank
content appends nothing; then `os.remove` — a remove failure prints an
error (after a possible successful append) and leaves the file. -/
def consolidateLoop : List WorkerFile → ConsolidateOut
  | [] => ⟨[], [], []⟩
  | f :: rest =>
      let r := consolidateLoop rest
      match f.read with
      | .error _ => ⟨r.chunks, r.removed, f.path :: r.errors⟩
      | .ok c =>
          let ch : List MergeChunk :=
            if pyStrip c = "" then []
            else [⟨f.path, workerPid f.path, c, !endsWithNewline c⟩]
          if f.removeFails then ⟨ch ++ r.chunks, r.removed, f.path :: r.errors⟩
          else ⟨ch ++ r.chunks, f.path :: r.removed, r.errors⟩

/-- `AppLogger.consolidate_logs` (lines 130-169): early return when the
glob finds nothing, otherwise the merge loop over the paths in sorted
order. -/
def consolidate_logs (workerFiles : List WorkerFile) : ConsolidateOut :=
  if workerFiles.isEmpty then ⟨[], [], []⟩
  else consolidateLoop (sortBy (fun a b => nameLe a.path b.path) workerFiles)

theorem chunkLoop_flatten (batchSize : Nat) (acc : List α) (l : List α) :
    (chunkLoop batchSize acc l).flatten = acc ++ l := by
  induction l generalizing acc with
  | nil =>
      by_cases h : acc.isEmpty
      · simp [chunkLoop, h, List.isEmpty_iff.mp h]
      · simp [chunkLoop, h]
  | cons r rs ih =>
      simp only [chunkLoop]
      split
      · simp [ih]
      · simp [ih]

theorem chunkLoop_length (batchSize : Nat) (hbs : 1 ≤ batchSize) :
    ∀ (l acc : List α), acc.length < batchSize →
      (chunkLoop batchSize acc l).length
        = (acc.length + l.length + batchSize - 1) / batchSize := by
  intro l
  induction l with
  | nil =>
      intro acc hacc
      simp only [chunkLoop]
      by_cases h : acc.isEmpty
      · have h0 : acc = [] := List.isEmpty_iff.mp h
        subst h0
        have hz : (batchSize - 1) / batchSize = 0 := Nat.div_eq_of_lt (by omega)
        simp [hz]
      · rw [if_neg h]
        have hlen : acc.length ≠ 0 :=
          fun hz => h (List.isEmpty_iff.mpr (List.length_eq_zero.mp hz))
        have h2 : acc.length + ([] : List α).length + batchSize - 1
            = (acc.length - 1) + batchSize := by simp; omega
        rw [h2, Nat.add_div_right _ (by omega), Nat.div_eq_of_lt (by omega)]
        simp
  | cons r rs ih =>
      intro acc hacc
      simp only [chunkLoop]
      split
      next h =>
        have h' : batchSize ≤ acc.length + 1 := by simpa using h
        have hb : acc.length + 1 = batchSize := by omega
        have ih0 := ih [] (by simp only [List.length_nil]; omega)
        simp only [List.length_cons, ih0, List.length_nil, Nat.zero_add]
        have h2 : acc.length + (rs.length + 1) + batchSize - 1
            = (rs.length + batchSize - 1) + batchSize := by omega
        rw [h2, Nat.add_div_right _ (by omega)]
      next h =>
        have h' : ¬ batchSize ≤ acc.length + 1 := by simpa using h
        have hacc' : (acc ++ [r]).length < batchSize := by
          simp only [List.length_append, List.length_cons, List.length_nil]
          omega
        rw [ih (acc ++ [r]) hacc']
        congr 1
        simp only [List.length_append, List.length_cons, List.length_nil]
        omega

theorem readFileBatches_eq_chunk (fileType : FileType) (batchSize : Nat) (sep : Char)
    (lines : List String) :
    readFileBatches fileType batchSize sep lines
      = chunkLoop batchSize [] (readerRecords fileType sep lines) := by
  cases fileType with
  | csv =>
      cases lines with
      | nil => rfl
      | cons h rest => rfl
  | pas => rfl

/-- C1 (counterexample): for the `csv` variant, a blank line among the
data rows is read back as the empty record `[]` rather than skipped, so on
the file `["h", "a,b", "", "c,d"]` with batch size 2 there are `N = 2`
non-header non-blank records but the reader yields 2 batches (not
`⌈2/2⌉ = 1`) whose lengths sum to 3 (not 2). -/
theorem C1_reader_counterexample :
    nonBlankDataCount .csv ["h", "a,b", "", "c,d"] = 2
      ∧ ((readFileBatches .csv 2 '|' ["h", "a,b", "", "c,d"]).map List.length).sum = 3
      ∧ (readFileBatches .csv 2 '|' ["h", "a,b", "", "c,d"]).length = 2
      ∧ (2 + 2 - 1) / 2 = 1 := by
  decide

/-- C1 (amended): for every file and batch size `B ≥ 1` the reader yields
`⌈N/B⌉` batches whose lengths sum to `N` and whose concatenation is the
file's record sequence in file order, each record exactly once, where for
the `pas` variant `N` counts the non-blank records (as the claim states)
and for the `csv` variant `N` counts *all* non-header `csv.reader` rows —
a blank line is included as an empty record, not skipped.  An empty file
and a CSV file containing only a header each yield the empty sequence. -/
theorem C1_reader_amended (fileType : FileType) (batchSize : Nat) (sep : Char)
    (lines : List String) (header : String) (hbs : 1 ≤ batchSize) :
    (readFileBatches fileType batchSize sep lines).length
        = ((readerRecords fileType sep lines).length + batchSize - 1) / batchSize
      ∧ (readFileBatches fileType batchSize sep lines).flatten
        = readerRecords fileType sep lines
      ∧ ((readFileBatches fileType batchSize sep lines).map List.length).sum
        = (readerRecords fileType sep lines).length
      ∧ (pasRecords sep lines).length = nonBlankDataCount .pas lines
      ∧ readFileBatches fileType batchSize sep [] = []
      ∧ readFileBatches .csv batchSize sep [header] = [] := by
  have hflat : (readFileBatches fileType batchSize sep lines).flatten
      = readerRecords fileType sep lines := by
    rw [readFileBatches_eq_chunk, chunkLoop_flatten]
    simp
  refine ⟨?_, hflat, ?_, ?_, ?_, ?_⟩
  · rw [readFileBatches_eq_chunk,
      chunkLoop_length batchSize hbs (readerRecords fileType sep lines) []
        (by simp only [List.length_nil]; omega)]
    simp
  · calc ((readFileBatches fileType batchSize sep lines).map List.length).sum
        = (readFileBatches fileType batchSize sep lines).flatten.length := by
          rw [List.length_flatten]
      _ = (readerRecords fileType sep lines).length := by rw [hflat]
  · simp [pasRecords, nonBlankDataCount]
  · cases fileType <;> simp [readFileBatches, pasRecords, chunkLoop]
  · simp [readFileBatches, chunkLoop]

/-- Witness for `C1_reader_amended` at a concrete PAS file and batch size. -/
theorem C1_reader_amended_witness :
    1 ≤ 2
      ∧ (readFileBatches .pas 2 '|' ["a|b", " ", "c|d", "e"]).flatten
        = readerRecords .pas '|' ["a|b", " ", "c|d", "e"]
      ∧ (readFileBatches .pas 2 '|' ["a|b", " ", "c|d", "e"]).length
        = ((readerRecords .pas '|' ["a|b", " ", "c|d", "e"]).length + 2 - 1) / 2 :=
  ⟨by decide,
   (C1_reader_amended .pas 2 '|' ["a|b", " ", "c|d", "e"] "h" (by decide)).2.1,
   (C1_reader_amended .pas 2 '|' ["a|b", " ", "c|d", "e"] "h" (by decide)).1⟩

/-- C7 (counterexample): a PAS file whose first decode attempt raises
after the line `"a|b"` was decoded (one full batch of size 1 already
yielded) and whose fallback decode reads `["a|b", "c|d"]`: the overall
sequence delivers the record `["a", "b"]` twice, not exactly once. -/
theorem C7_fallback_counterexample :
    let run := getFileReaderGenerator .pas 1 '|' (["a|b"], true) (["a|b", "c|d"], false)
    run.yielded.flatten.count ["a", "b"] = 2
      ∧ run.raised = false
      ∧ ((["a|b", "c|d"] : List String).filter (fun l => pyStrip l ≠ "")).length = 2 := by
  decide

/-- C7 (amended): when the first decode attempt raises mid-stream, the
caller retries the file from the beginning under the fallback encoding
(whose byte-replacing mode never raises), and the restarted read is a
fresh `_read_file_batches` sequence with no cross-attempt state; the
overall sequence yielded to the caller covers every record of the
fallback-decoded file *at least* once — records contained in batches
already yielded before the failure are delivered twice (the handler
appends the fresh read after them instead of retracting them). -/
theorem C7_fallback_amended (fileType : FileType) (batchSize : Nat) (sep : Char)
    (l1 l2 : List String) :
    (getFileReaderGenerator fileType batchSize sep (l1, true) (l2, false)).yielded
        = (readFileBatchesAttempt fileType batchSize sep l1 true).yielded
            ++ readFileBatches fileType batchSize sep l2
      ∧ (getFileReaderGenerator fileType batchSize sep (l1, true) (l2, false)).raised = false
      ∧ ∀ r : List String,
          (getFileReaderGenerator fileType batchSize sep (l1, true) (l2, false)).yielded.flatten.count r
            = (readFileBatchesAttempt fileType batchSize sep l1 true).yielded.flatten.count r
                + (readerRecords fileType sep l2).count r := by
  have hr1 : (readFileBatchesAttempt fileType batchSize sep l1 true).raised = true := by
    cases fileType with
    | csv => cases l1 <;> simp [readFileBatchesAttempt]
    | pas => simp [readFileBatchesAttempt]
  have h2 : readFileBatchesAttempt fileType batchSize sep l2 false
      = ⟨readFileBatches fileType batchSize sep l2, false⟩ := by
    simp [readFileBatchesAttempt]
  have hmain : (getFileReaderGenerator fileType batchSize sep (l1, true) (l2, false)).yielded
      = (readFileBatchesAttempt fileType batchSize sep l1 true).yielded
          ++ readFileBatches fileType batchSize sep l2 := by
    simp only [getFileReaderGenerator, hr1, h2, if_true]
  refine ⟨hmain, ?_, ?_⟩
  · simp only [getFileReaderGenerator, hr1, h2, if_true]
  · intro r
    rw [hmain]
    have hflat : (readFileBatches fileType batchSize sep l2).flatten
        = readerRecords fileType sep l2 := by
      rw [readFileBatches_eq_chunk, chunkLoop_flatten]; simp
    rw [List.flatten_append, List.count_append, hflat]

/-- C2: evaluation of the code at the failing input.  The `AppLogger`
class in `logger.py` defines no `get_queue` attribute, so for every
existing input file `AppLogger.get_queue()` raises `AttributeError` and
`process_file_streaming` takes the catch-all ERROR branch without ever
submitting a batch — the claimed queue retrieval never succeeds.
(`AppLogger.setup_worker`, which `_worker_init` calls with the queue,
exists but its parameter is a log *directory*, not a queue.) -/
theorem C2_log_channel_code_bug :
    processFileStreamingStart true = .caughtError (.attributeError "get_queue")
      ∧ ("get_queue" ∈ appLoggerClassAttrs) = False
      ∧ "setup_worker" ∈ appLoggerClassAttrs := by
  refine ⟨by decide, by simp [appLoggerClassAttrs], by decide⟩

theorem applyMask_length (m : List Bool) (l : List (Fut α)) :
    (applyMask m l).1.length + (applyMask m l).2.length = l.length := by
  induction m generalizing l with
  | nil => cases l <;> simp [applyMask]
  | cons b ms ih =>
      cases l with
      | nil => simp [applyMask]
      | cons f fs =>
          have := ih fs
          cases b <;> simp [applyMask] <;> omega

theorem applyMask_fst_subset (m : List Bool) (l : List (Fut α)) :
    ∀ f ∈ (applyMask m l).1, f ∈ l := by
  induction m generalizing l with
  | nil => cases l <;> simp [applyMask]
  | cons b ms ih =>
      cases l with
      | nil => simp [applyMask]
      | cons g fs =>
          intro f hf
          cases b with
          | false =>
              simp only [applyMask, if_neg] at hf
              exact List.mem_cons_of_mem _ (ih fs f hf)
          | true =>
              simp only [applyMask, if_pos rfl] at hf
              rcases List.mem_cons.mp hf with rfl | hf'
              · exact List.mem_cons_self _ _
              · exact List.mem_cons_of_mem _ (ih fs f hf')

theorem applyMask_snd_subset (m : List Bool) (l : List (Fut α)) :
    ∀ f ∈ (applyMask m l).2, f ∈ l := by
  induction m generalizing l with
  | nil => cases l <;> simp [applyMask]
  | cons b ms ih =>
      cases l with
      | nil => simp [applyMask]
      | cons g fs =>
          intro f hf
          cases b with
          | true =>
              simp only [applyMask, if_pos rfl] at hf
              exact List.mem_cons_of_mem _ (ih fs f hf)
          | false =>
              simp only [applyMask, if_neg] at hf
              rcases List.mem_cons.mp hf with rfl | hf'
              · exact List.mem_cons_self _ _
              · exact List.mem_cons_of_mem _ (ih fs f hf')

theorem waitFirstCompleted_snd_lt (m : List Bool) (f : Fut α) (fs : List (Fut α)) :
    (waitFirstCompleted m (f :: fs)).2.length < (f :: fs).length := by
  simp only [waitFirstCompleted]
  split
  · simp
  next h =>
      have hl := applyMask_length m (f :: fs)
      have h1 : 1 ≤ (applyMask m (f :: fs)).1.length := by
        cases hE : (applyMask m (f :: fs)).1 with
        | nil => rw [hE] at h; simp at h
        | cons x xs => simp [hE]
      simp only [List.length_cons] at hl ⊢
      omega

theorem waitFirstCompleted_fst_subset (m : List Bool) (futs : List (Fut α)) :
    ∀ f ∈ (waitFirstCompleted m futs).1, f ∈ futs := by
  cases futs with
  | nil => simp [waitFirstCompleted]
  | cons g fs =>
      intro f hf
      simp only [waitFirstCompleted] at hf
      split at hf
      · rcases List.mem_cons.mp hf with rfl | hf'
        · exact List.mem_cons_self _ _
        · simp at hf'
      · exact applyMask_fst_subset m (g :: fs) f hf

theorem waitFirstCompleted_snd_subset (m : List Bool) (futs : List (Fut α)) :
    ∀ f ∈ (waitFirstCompleted m futs).2, f ∈ futs := by
  cases futs with
  | nil => simp [waitFirstCompleted]
  | cons g fs =>
      intro f hf
      simp only [waitFirstCompleted] at hf
      split at hf
      · exact List.mem_cons_of_mem _ hf
      · exact applyMask_snd_subset m (g :: fs) f hf

theorem submitPhase_bound (maxPending : Nat) (hmp : 1 ≤ maxPending)
    (masks : Nat → List Bool) :
    ∀ (batches : List (α × Bool)) (futs : List (Fut α)) (counter waitIdx : Nat),
      futs.length ≤ maxPending →
      (∀ x ∈ (submitPhase maxPending masks batches futs counter waitIdx).2.2, x ≤ maxPending)
        ∧ (submitPhase maxPending masks batches futs counter waitIdx).1.length ≤ maxPending := by
  intro batches
  induction batches with
  | nil =>
      intro futs counter waitIdx h
      exact ⟨by simp [submitPhase], by simpa [submitPhase] using h⟩
  | cons bc rest ih =>
      obtain ⟨b, cr⟩ := bc
      intro futs counter waitIdx h
      simp only [submitPhase]
      split
      next hge =>
        cases futs with
        | nil => simp at hge; omega
        | cons f fs =>
            have hlt := waitFirstCompleted_snd_lt (masks waitIdx) f fs
            have hnd : (waitFirstCompleted (masks waitIdx) (f :: fs)).2.length + 1 ≤ maxPending := by
              simp only [List.length_cons] at hlt h
              omega
            have ihr := ih ((waitFirstCompleted (masks waitIdx) (f :: fs)).2 ++ [⟨b, counter + 1, cr⟩])
              (counter + 1) (waitIdx + 1) (by simpa using hnd)
            refine ⟨?_, ihr.2⟩
            intro x hx
            rcases List.mem_cons.mp hx with rfl | hx'
            · omega
            rcases List.mem_cons.mp hx' with rfl | hx''
            · simpa using hnd
            · exact ihr.1 x hx''
      next hlt' =>
        have hlen : (futs ++ [(⟨b, counter + 1, cr⟩ : Fut α)]).length ≤ maxPending := by
          simp; omega
        have ihr := ih (futs ++ [⟨b, counter + 1, cr⟩]) (counter + 1) waitIdx hlen
        refine ⟨?_, ihr.2⟩
        intro x hx
        rcases List.mem_cons.mp hx with rfl | hx'
        · simpa using hlen
        · exact ihr.1 x hx'

theorem drainPhase_trace_bound (masks : Nat → List Bool) :
    ∀ (fuel : Nat) (futs : List (Fut α)) (waitIdx bound : Nat),
      futs.length ≤ bound →
      ∀ x ∈ (drainPhase masks fuel futs waitIdx).2.1, x ≤ bound := by
  intro fuel
  induction fuel with
  | zero =>
      intro futs waitIdx bound hb x hx
      cases futs <;> simp [drainPhase] at hx
  | succ fuel ih =>
      intro futs waitIdx bound hb x hx
      cases futs with
      | nil => simp [drainPhase] at hx
      | cons f fs =>
          simp only [drainPhase] at hx
          rcases List.mem_cons.mp hx with rfl | hx'
          · have := waitFirstCompleted_snd_lt (masks waitIdx) f fs
            simp only [List.length_cons] at this hb
            omega
          · have hlt := waitFirstCompleted_snd_lt (masks waitIdx) f fs
            exact ih _ (waitIdx + 1) bound
              (by simp only [List.length_cons] at hlt hb; omega) x hx'

theorem drainPhase_done (masks : Nat → List Bool) :
    ∀ (fuel : Nat) (futs : List (Fut α)) (waitIdx : Nat),
      futs.length ≤ fuel → (drainPhase masks fuel futs waitIdx).2.2 = true := by
  intro fuel
  induction fuel with
  | zero =>
      intro futs waitIdx hb
      cases futs with
      | nil => simp [drainPhase]
      | cons f fs => simp at hb
  | succ fuel ih =>
      intro futs waitIdx hb
      cases futs with
      | nil => simp [drainPhase]
      | cons f fs =>
          simp only [drainPhase]
          have hlt := waitFirstCompleted_snd_lt (masks waitIdx) f fs
          exact ih _ (waitIdx + 1) (by simp only [List.length_cons] at hlt hb; omega)

theorem drainPhase_no_crash (masks : Nat → List Bool) :
    ∀ (fuel : Nat) (futs : List (Fut α)) (waitIdx : Nat),
      (∀ f ∈ futs, f.crashes = false) →
      (drainPhase masks fuel futs waitIdx).1 = [] := by
  intro fuel
  induction fuel with
  | zero =>
      intro futs waitIdx hcr
      cases futs <;> simp [drainPhase]
  | succ fuel ih =>
      intro futs waitIdx hcr
      cases futs with
      | nil => simp [drainPhase]
      | cons f fs =>
          simp only [drainPhase]
          have hd : ((waitFirstCompleted (masks waitIdx) (f :: fs)).1.filter
              (fun g => g.crashes)) = [] := by
            apply List.filter_eq_nil_iff.mpr
            intro g hg
            have := hcr g (waitFirstCompleted_fst_subset (masks waitIdx) (f :: fs) g hg)
            simp [this]
          have hrest := ih ((waitFirstCompleted (masks waitIdx) (f :: fs)).2) (waitIdx + 1)
            (fun g hg => hcr g (waitFirstCompleted_snd_subset (masks waitIdx) (f :: fs) g hg))
          simp [hd, hrest]

theorem submitPhase_no_crash (maxPending : Nat) (masks : Nat → List Bool) :
    ∀ (batches : List (α × Bool)) (futs : List (Fut α)) (counter waitIdx : Nat),
      (∀ bc ∈ batches, bc.2 = false) →
      (∀ f ∈ futs, f.crashes = false) →
      ∀ f ∈ (submitPhase maxPending masks batches futs counter waitIdx).1, f.crashes = false := by
  intro batches
  induction batches with
  | nil =>
      intro futs counter waitIdx _ hf
      simpa [submitPhase] using hf
  | cons bc rest ih =>
      obtain ⟨b, cr⟩ := bc
      intro futs counter waitIdx hb hf
      have hcr : cr = false := hb (b, cr) (List.mem_cons_self _ _)
      have hb' : ∀ bc ∈ rest, bc.2 = false := fun x hx => hb x (List.mem_cons_of_mem _ hx)
      simp only [submitPhase]
      split
      · exact ih _ (counter + 1) (waitIdx + 1) hb'
          (by
            intro g hg
            rcases List.mem_append.mp hg with hg' | hg'
            · exact hf g (waitFirstCompleted_snd_subset (masks waitIdx) futs g hg')
            · simp at hg'; subst hg'; exact hcr)
      · exact ih _ (counter + 1) waitIdx hb'
          (by
            intro g hg
            rcases List.mem_append.mp hg with hg' | hg'
            · exact hf g hg'
            · simp at hg'; subst hg'; exact hcr)

/-- C3: at every point of a `process_file_streaming` run — after each
backpressure harvest, after each submission, and after each drain step —
the in-flight future set has size at most
`MAX_PENDING_BATCHES = num_workers * 2`, for every worker count ≥ 1,
every completion schedule and every batch sequence; and the drain loop
really empties the in-flight set. -/
theorem C3_inflight_bound (numWorkers : Nat) (masks : Nat → List Bool)
    (batches : List (α × Bool)) (hw : 1 ≤ numWorkers) :
    (∀ x ∈ (processFileStreamingRun numWorkers masks batches).trace, x ≤ numWorkers * 2)
      ∧ (processFileStreamingRun numWorkers masks batches).drainDone = true := by
  have hmp : 1 ≤ numWorkers * 2 := by omega
  have hsub := submitPhase_bound (numWorkers * 2) hmp masks batches [] 0 0 (by simp)
  constructor
  · intro x hx
    simp only [processFileStreamingRun] at hx
    rcases List.mem_cons.mp hx with rfl | hx'
    · omega
    rcases List.mem_append.mp hx' with hx'' | hx''
    · exact hsub.1 x hx''
    · exact drainPhase_trace_bound masks _ _ _ (numWorkers * 2) hsub.2 x hx''
  · simp only [processFileStreamingRun]
    exact drainPhase_done masks _ _ _ (le_refl _)

/-- Witness for `C3_inflight_bound`: one worker (`MAX_PENDING_BATCHES = 2`),
three batches, first-submitted future completing at each wait. -/
theorem C3_inflight_bound_witness :
    1 ≤ 1 ∧
      (∀ x ∈ (processFileStreamingRun 1 (fun _ => [true])
        [("a", false), ("b", false), ("c", false)]).trace, x ≤ 1 * 2) :=
  ⟨by decide,
   (C3_inflight_bound 1 (fun _ => [true])
      [("a", false), ("b", false), ("c", false)] (by decide)).1⟩

/-- C4: evaluation of the code at the failing schedule.  With one worker
(`MAX_PENDING_BATCHES = 2`) and three batches whose first raises, the
backpressure wait before the third submission harvests the raising future;
`_process_completed_futures` swallows the exception (`pass`) without
recording the batch, so the run ends with an *empty* failed-batches list —
the raising batch is never retried, contradicting the claim that every
raising batch is appended to the failed-batches output exactly once. -/
theorem C4_failed_batch_dropped :
    (processFileStreamingRun 1 (fun i => if i = 0 then [true, false] else [true])
        [("b1", true), ("b2", false), ("b3", false)]).failed = []
      ∧ (processFileStreamingRun 1 (fun i => if i = 0 then [true, false] else [true])
          [("b1", true), ("b2", false), ("b3", false)]).drainDone = true := by
  decide

theorem processLoop_stats_sum (idx : PatientMapping) (orc : BatchOracle)
    (excl : List String) (batchId : String) :
    ∀ (batch : List PyObj) (i : Nat),
      (processLoop idx orc excl batchId i batch).stats.processed
        + (processLoop idx orc excl batchId i batch).stats.skipped
        + (processLoop idx orc excl batchId i batch).stats.errors = batch.length := by
  intro batch
  induction batch with
  | nil => intro i; simp [processLoop]
  | cons r rs ih =>
      intro i
      have hrec := ih (i + 1)
      simp only [processLoop]
      cases h : processOneRecord idx orc excl i r
      all_goals try simp only [List.length_cons]
      all_goals omega

theorem processLoop_no_mismatch (idx : PatientMapping) (orc : BatchOracle)
    (excl : List String) (batchId : String) :
    ∀ (batch : List PyObj) (i : Nat),
      (processLoop idx orc excl batchId i batch).events.any isMismatchEv = false := by
  intro batch
  induction batch with
  | nil => intro i; simp [processLoop]
  | cons r rs ih =>
      intro i
      have hrec := ih (i + 1)
      simp only [processLoop]
      cases h : processOneRecord idx orc excl i r <;>
        simp [isMismatchEv, hrec]

theorem processLoop_raised_mem (idx : PatientMapping) (orc : BatchOracle)
    (excl : List String) (batchId : String) :
    ∀ (batch : List PyObj) (start i : Nat) (h : i < batch.length) (pid : String) (e : PyExc),
      processOneRecord idx orc excl (start + i) (batch.get ⟨i, h⟩) = .raised pid e →
      LogEvent.recordException batchId (start + i) pid e
        ∈ (processLoop idx orc excl batchId start batch).events := by
  intro batch
  induction batch with
  | nil => intro start i h; simp at h
  | cons r rs ih =>
      intro start i h pid e hout
      cases i with
      | zero =>
          simp only [List.get] at hout
          simp only [processLoop, Nat.add_zero] at *
          rw [hout]
          exact List.mem_cons_self _ _
      | succ i =>
          have h' : i < rs.length := by simpa using h
          have hout' : processOneRecord idx orc excl ((start + 1) + i) (rs.get ⟨i, h'⟩)
              = .raised pid e := by
            have : start + (i + 1) = (start + 1) + i := by omega
            rw [← this]
            simpa using hout
          have hm := ih (start + 1) i h' pid e hout'
          have hms : LogEvent.recordException batchId (start + (i + 1)) pid e
              ∈ (processLoop idx orc excl batchId (start + 1) rs).events := by
            have : start + (i + 1) = (start + 1) + i := by omega
            rw [this]
            exact hm
          simp only [processLoop]
          cases hrec : processOneRecord idx orc excl start r <;>
            simp only [] <;> first
              | exact List.mem_cons_of_mem _ hms
              | exact hms

theorem saveSection_no_mismatch (orc : BatchOracle) (batchId : String)
    (msgs : List String) :
    (saveSection orc batchId msgs).any isMismatchEv = false := by
  unfold saveSection
  split
  · rfl
  · cases horc : orc.save <;> simp [isMismatchEv]

theorem summarySection_no_mismatch (batchId : String) (st : BatchStats) (expected : Nat)
    (h : st.processed + st.skipped + st.errors = expected) :
    (summarySection batchId st expected).any isMismatchEv = false := by
  unfold summarySection
  simp [h, isMismatchEv]

/-- C5: for every batch run through `process_record_batch`, the returned
log contains the CRITICAL accounting-mismatch event exactly when
`processed + skipped + errors` differs from the batch length; moreover the
counters always account for every record (each loop iteration bumps
exactly one counter), so the mismatch branch is provably unreachable; and
a batch whose execution returns (rather than raises) — in particular a
mismatch batch — is never added to the scheduler's failed-batches retry
queue: when no submission crashes, the run's failed list is empty. -/
theorem C5_accounting_mismatch (idx : PatientMapping) (orc : BatchOracle)
    (excl : List String) (batchId : String) (batch : List PyObj) :
    (hasAccountingMismatch (process_record_batch idx orc excl batchId batch) = true
        ↔ (processRecordBatchRun idx orc excl batchId batch).2.processed
            + (processRecordBatchRun idx orc excl batchId batch).2.skipped
            + (processRecordBatchRun idx orc excl batchId batch).2.errors ≠ batch.length)
      ∧ (processRecordBatchRun idx orc excl batchId batch).2.processed
          + (processRecordBatchRun idx orc excl batchId batch).2.skipped
          + (processRecordBatchRun idx orc excl batchId batch).2.errors = batch.length
      ∧ (∀ (numWorkers : Nat) (masks : Nat → List Bool)
            (subs : List (List PyObj × Bool)),
          (∀ bc ∈ subs, bc.2 = false) →
          (processFileStreamingRun numWorkers masks subs).failed = []) := by
  have hsum := processLoop_stats_sum idx orc excl batchId batch 1
  have hstats : (processRecordBatchRun idx orc excl batchId batch).2
      = (processLoop idx orc excl batchId 1 batch).stats := rfl
  have hfalse : hasAccountingMismatch (process_record_batch idx orc excl batchId batch)
      = false := by
    unfold process_record_batch processRecordBatchRun hasAccountingMismatch
    have h1 := processLoop_no_mismatch idx orc excl batchId batch 1
    have h2 := saveSection_no_mismatch orc batchId
      (processLoop idx orc excl batchId 1 batch).messages
    have h3 := summarySection_no_mismatch batchId
      (processLoop idx orc excl batchId 1 batch).stats batch.length hsum
    simp [isMismatchEv, h1, h2, h3]
  refine ⟨?_, by rw [hstats]; exact hsum, ?_⟩
  · rw [hfalse, hstats]
    simp [hsum]
  · intro numWorkers masks subs hsubs
    simp only [processFileStreamingRun]
    exact drainPhase_no_crash masks _ _ _
      (submitPhase_no_crash (numWorkers * 2) masks subs [] 0 0 hsubs (by simp))

/-- Witness for `C5_accounting_mismatch`: a concrete one-record batch and
a concrete crash-free scheduling run. -/
theorem C5_accounting_mismatch_witness :
    (processRecordBatchRun sampleIdx sampleOracleOk [] "f.csv:1"
        [PyObj.list (List.replicate 26 "x")]).2.processed
      + (processRecordBatchRun sampleIdx sampleOracleOk [] "f.csv:1"
          [PyObj.list (List.replicate 26 "x")]).2.skipped
      + (processRecordBatchRun sampleIdx sampleOracleOk [] "f.csv:1"
          [PyObj.list (List.replicate 26 "x")]).2.errors
        = ([PyObj.list (List.replicate 26 "x")] : List PyObj).length
    ∧ (processFileStreamingRun 1 (fun _ => [true])
        [([PyObj.other], false), ([PyObj.other], false)]).failed = [] :=
  ⟨(C5_accounting_mismatch sampleIdx sampleOracleOk [] "f.csv:1"
      [PyObj.list (List.replicate 26 "x")]).2.1,
   (C5_accounting_mismatch sampleIdx sampleOracleOk [] "f.csv:1"
      [PyObj.list (List.replicate 26 "x")]).2.2 1 (fun _ => [true])
      [([PyObj.other], false), ([PyObj.other], false)] (by decide)⟩

/-- C8: `process_record_batch` is total — in the model it returns a plain
event list for every batch, id, exclusion set and collaborator oracle —
and every exception raised inside record processing (field mapping via
`record[_idx[k]]`, HL7 generation, the legacy fallback) or inside the
batch save is caught by the function's own handlers and converted into an
ERROR-level log event (`recordException`, resp. `saveError`) instead of
escaping to the scheduler. -/
theorem C8_transform_total (idx : PatientMapping) (orc : BatchOracle)
    (excl : List String) (batchId : String) (batch : List PyObj) :
    (∀ (i : Nat) (h : i < batch.length) (pid : String) (e : PyExc),
        processOneRecord idx orc excl (1 + i) (batch.get ⟨i, h⟩) = .raised pid e →
        LogEvent.recordException batchId (1 + i) pid e
            ∈ process_record_batch idx orc excl batchId batch
          ∧ (LogEvent.recordException batchId (1 + i) pid e).level = .ERROR)
      ∧ (∀ e : PyExc, orc.save = .error e →
          (processLoop idx orc excl batchId 1 batch).messages ≠ [] →
          LogEvent.saveError batchId e ∈ process_record_batch idx orc excl batchId batch
            ∧ (LogEvent.saveError batchId e).level = .ERROR) := by
  constructor
  · intro i h pid e hout
    refine ⟨?_, rfl⟩
    have hm := processLoop_raised_mem idx orc excl batchId batch 1 i h pid e hout
    unfold process_record_batch processRecordBatchRun
    simp only [List.mem_cons, List.mem_append]
    exact Or.inr (Or.inl (Or.inl hm))
  · intro e hsave hmsgs
    refine ⟨?_, rfl⟩
    unfold process_record_batch processRecordBatchRun
    simp only [List.mem_cons, List.mem_append]
    refine Or.inr (Or.inl (Or.inr ?_))
    unfold saveSection
    rw [if_neg (by simpa [List.isEmpty_iff] using hmsgs), hsave]
    exact List.mem_singleton.mpr rfl

/-- Witness for `C8_transform_total`: a record whose HL7 generation
raises and a save that raises, both converted to ERROR events. -/
theorem C8_transform_total_witness :
    (0 < ([PyObj.list (List.replicate 26 "x")] : List PyObj).length)
      ∧ LogEvent.recordException "b" (1 + 0) "x" (.other "boom")
          ∈ process_record_batch sampleIdx sampleOracleRaise [] "b"
              [PyObj.list (List.replicate 26 "x")] :=
  ⟨by decide,
   ((C8_transform_total sampleIdx sampleOracleRaise [] "b"
       [PyObj.list (List.replicate 26 "x")]).1 0 (by decide) "x" (.other "boom")
       (by decide)).1⟩

theorem retryPassRun_remaining (transform : Nat → α × Nat → Except PyExc (List LogEvent))
    (base : String) (p : Nat) (fbs : List (α × Nat)) :
    (retryPassRun transform base p fbs).1 = fbs.filter (raisesAt transform p) := by
  induction fbs with
  | nil => rfl
  | cons bf rest ih =>
      simp only [retryPassRun]
      cases h : transform p bf <;>
        simp [List.filter_cons, raisesAt, h, ih]

theorem retryPassRun_calls (transform : Nat → α × Nat → Except PyExc (List LogEvent))
    (base : String) (p : Nat) (fbs : List (α × Nat)) :
    ∀ c ∈ (retryPassRun transform base p fbs).2.2,
      c.1 = p ∧ ∃ i, c.2 = mkRetryId base i := by
  induction fbs with
  | nil => simp [retryPassRun]
  | cons bf rest ih =>
      intro c hc
      simp only [retryPassRun] at hc
      cases h : transform p bf <;> rw [h] at hc <;>
        simp only [] at hc <;>
        rcases List.mem_cons.mp hc with rfl | hc' <;>
        first
          | exact ⟨rfl, bf.2, rfl⟩
          | exact ih c hc'

theorem retryLoop_remaining_sublist (transform : Nat → α × Nat → Except PyExc (List LogEvent))
    (base : String) :
    ∀ (fuel p : Nat) (fbs : List (α × Nat)),
      List.Sublist (retryLoop transform base p fuel fbs).remaining fbs := by
  intro fuel
  induction fuel with
  | zero => intro p fbs; exact List.Sublist.refl _
  | succ fuel ih =>
      intro p fbs
      simp only [retryLoop]
      split
      · exact List.Sublist.refl _
      · exact ((ih (p + 1) _).trans
          (by rw [retryPassRun_remaining]; exact List.filter_sublist _))

theorem retryLoop_calls (transform : Nat → α × Nat → Except PyExc (List LogEvent))
    (base : String) :
    ∀ (fuel p : Nat) (fbs : List (α × Nat)),
      ∀ c ∈ (retryLoop transform base p fuel fbs).calls,
        p ≤ c.1 ∧ c.1 < p + fuel ∧ ∃ i, c.2 = mkRetryId base i := by
  intro fuel
  induction fuel with
  | zero => intro p fbs c hc; simp [retryLoop] at hc
  | succ fuel ih =>
      intro p fbs c hc
      simp only [retryLoop] at hc
      split at hc
      · simp at hc
      · rcases List.mem_append.mp hc with hc' | hc'
        · obtain ⟨h1, i, h2⟩ := retryPassRun_calls transform base p fbs c hc'
          exact ⟨by omega, by omega, i, h2⟩
        · obtain ⟨h1, h2, i, h3⟩ := ih (p + 1) _ c hc'
          exact ⟨by omega, by omega, i, h3⟩

theorem count_filter_neg [DecidableEq α] {p : α × Nat → Bool} {b : α × Nat} (h : p b = false)
    (l : List (α × Nat)) : (l.filter p).count b = 0 := by
  rw [List.count_eq_zero]
  intro hmem
  have := (List.mem_filter.mp hmem).2
  rw [h] at this
  cases this

theorem retryLoop_count [DecidableEq α]
    (transform : Nat → α × Nat → Except PyExc (List LogEvent))
    (base : String) (b : α × Nat) :
    ∀ (fuel p : Nat) (fbs : List (α × Nat)), fbs.count b = 1 →
      (retryLoop transform base p fuel fbs).remaining.count b
        = if ((List.range fuel).all (fun q => raisesAt transform (p + q) b)) then 1 else 0 := by
  intro fuel
  induction fuel with
  | zero =>
      intro p fbs hc
      simpa [retryLoop] using hc
  | succ fuel ih =>
      intro p fbs hc
      have hne : fbs.isEmpty = false := by
        cases hE : fbs with
        | nil => rw [hE] at hc; simp at hc
        | cons x xs => simp [hE]
      have hall : (List.range (fuel + 1)).all (fun q => raisesAt transform (p + q) b)
          = (raisesAt transform p b
              && (List.range fuel).all (fun q => raisesAt transform ((p + 1) + q) b)) := by
        rw [List.range_succ_eq_map]
        simp only [List.all_cons, List.all_map, Function.comp_def, Nat.add_zero]
        congr 1
        congr 1
        funext q
        rw [show p + Nat.succ q = (p + 1) + q from by omega]
      simp only [retryLoop, hne, Bool.false_eq_true, if_false]
      rw [hall, retryPassRun_remaining]
      cases hr : raisesAt transform p b with
      | true =>
          have hcf : (fbs.filter (raisesAt transform p)).count b = 1 := by
            rw [List.count_filter hr]; exact hc
          rw [ih (p + 1) _ hcf]
          simp
      | false =>
          have hz : (retryLoop transform base (p + 1) fuel
              (fbs.filter (raisesAt transform p))).remaining.count b = 0 := by
            have hcf := count_filter_neg hr fbs
            have hsub := retryLoop_remaining_sublist transform base fuel (p + 1)
              (fbs.filter (raisesAt transform p))
            have := hsub.count_le b
            omega
          rw [hz]
          simp

/-- C6: the retry controller performs at most `max_retries` synchronous
passes, always calling the transform with a `"_retry"`-suffixed id of the
form `f"{file_basename}:{batch_id}_retry"`; a batch whose retry raises is
carried to the next pass, and a batch occurring once in the failed list
ends up in the terminal `failed_batches` exactly once when every one of
its retries raises — and not at all when some retry succeeds (no
duplication, no silent drop, no fabricated success); when batches remain
they are reported by the `"Final failure"` event at ERROR level, and the
controller itself never raises (it is a total function of its inputs). -/
theorem C6_retry_controller [DecidableEq α]
    (transform : Nat → α × Nat → Except PyExc (List LogEvent))
    (base : String) (maxRetries : Nat) (fbs : List (α × Nat)) (b : α × Nat) :
    (∀ c ∈ (retryFailedBatches transform base maxRetries fbs).calls,
        c.1 < maxRetries ∧ ∃ i, c.2 = mkRetryId base i)
      ∧ (fbs.count b = 1 →
          (retryFailedBatches transform base maxRetries fbs).remaining.count b
            = if ((List.range maxRetries).all (fun p => raisesAt transform p b))
              then 1 else 0)
      ∧ ((retryFailedBatches transform base maxRetries fbs).remaining ≠ [] →
          LogEvent.finalFailure
              (retryFailedBatches transform base maxRetries fbs).remaining.length
              ∈ (retryFailedBatches transform base maxRetries fbs).events
            ∧ (LogEvent.finalFailure
                (retryFailedBatches transform base maxRetries fbs).remaining.length).level
                = .ERROR) := by
  by_cases hE : fbs.isEmpty
  · have hnil : fbs = [] := List.isEmpty_iff.mp hE
    subst hnil
    refine ⟨?_, ?_, ?_⟩
    · intro c hc; simp [retryFailedBatches] at hc
    · intro hc; simp at hc
    · intro hne; simp [retryFailedBatches] at hne
  · have hEf : fbs.isEmpty = false := by simpa using hE
    refine ⟨?_, ?_, ?_⟩
    · intro c hc
      simp only [retryFailedBatches, hEf, Bool.false_eq_true, if_false] at hc
      obtain ⟨h1, h2, i, h3⟩ := retryLoop_calls transform base maxRetries 0 fbs c hc
      exact ⟨by omega, i, h3⟩
    · intro hc
      simp only [retryFailedBatches, hEf, Bool.false_eq_true, if_false]
      rw [retryLoop_count transform base b maxRetries 0 fbs hc]
      have hfun : (fun q => raisesAt transform (0 + q) b)
          = (fun p => raisesAt transform p b) := by
        funext q
        rw [Nat.zero_add]
      rw [hfun]
    · intro hne
      simp only [retryFailedBatches, hEf, Bool.false_eq_true, if_false] at hne ⊢
      have hneF : (retryLoop transform base 0 maxRetries fbs).remaining.isEmpty = false := by
        simpa [List.isEmpty_iff] using hne
      refine ⟨?_, rfl⟩
      apply List.mem_cons_of_mem
      apply List.mem_append_right
      rw [hneF]
      simp

/-- Witness for `C6_retry_controller`: two failed batches, one that keeps
raising (terminal exactly once) and one that succeeds on its first retry. -/
theorem C6_retry_controller_witness :
    ([("b1", 1), ("b2", 2)] : List (String × Nat)).count ("b1", 1) = 1
      ∧ (retryFailedBatches sampleTransform "f.csv" 2
            [("b1", 1), ("b2", 2)]).remaining.count ("b1", 1)
          = (if ((List.range 2).all (fun p => raisesAt sampleTransform p ("b1", 1)))
             then 1 else 0)
      ∧ (retryFailedBatches sampleTransform "f.csv" 2 [("b1", 1), ("b2", 2)]).remaining ≠ []
      ∧ LogEvent.finalFailure
            (retryFailedBatches sampleTransform "f.csv" 2
              [("b1", 1), ("b2", 2)]).remaining.length
          ∈ (retryFailedBatches sampleTransform "f.csv" 2 [("b1", 1), ("b2", 2)]).events :=
  ⟨by decide,
   (C6_retry_controller sampleTransform "f.csv" 2 [("b1", 1), ("b2", 2)]
      ("b1", 1)).2.1 (by decide),
   by decide,
   ((C6_retry_controller sampleTransform "f.csv" 2 [("b1", 1), ("b2", 2)]
      ("b1", 1)).2.2 (by decide)).1⟩

theorem runCounterSteps_eq_zip (c : Nat) (ks : List w) :
    runCounterSteps (c % 2^32) ks
      = ks.zip ((List.range' (c + 1) ks.length).map (fun m => int32Val (m % 2^32))) := by
  induction ks generalizing c with
  | nil => rfl
  | cons k ks ih =>
      simp only [runCounterSteps, List.length_cons, List.range', List.map_cons,
        List.zip_cons_cons]
      rw [Nat.mod_add_mod]
      exact congrArg _ (ih (c + 1))

theorem sequenceObservations_eq (schedule : List w) :
    sequenceObservations schedule
      = schedule.zip ((List.range' 1 schedule.length).map (fun m => int32Val (m % 2^32))) := by
  have h := runCounterSteps_eq_zip 0 schedule
  simpa [sequenceObservations] using h

theorem sequenceObservations_snd (schedule : List w) (hn : schedule.length < 2^31) :
    (sequenceObservations schedule).map Prod.snd
      = (List.range' 1 schedule.length).map (Nat.cast : Nat → Int) := by
  rw [sequenceObservations_eq]
  rw [List.map_snd_zip schedule
    ((List.range' 1 schedule.length).map (fun m => int32Val (m % 2^32))) (by simp)]
  apply List.map_congr_left
  intro m hm
  obtain ⟨i, hilt, rfl⟩ := List.mem_range'.mp hm
  have e31 : (2:Nat)^31 = 2147483648 := by norm_num
  have e32 : (2:Nat)^32 = 4294967296 := by norm_num
  rw [e31] at hn
  have hlt31 : 1 + 1 * i < 2^31 := by rw [e31]; omega
  have hltm : (1 + 1 * i) % 2^32 = 1 + 1 * i := Nat.mod_eq_of_lt (by rw [e32]; omega)
  rw [hltm, int32Val, if_pos hlt31]

/-- C9 (counterexample): the sequence counter is a C `int`, and its
`+= 1` wraps silently, so the increment number `2^31` drops the observed
value from `2^31 - 1` to `-2^31`: in a run of `2^31 + 1` locked
increments by a single worker, that worker's observed values are *not*
strictly increasing (and `2^32` increments would repeat values), so the
claim's unconditional uniqueness/monotonicity — for arbitrary numbers of
requests — fails on the wrapping counter. -/
theorem C9_wrap_counterexample :
    ¬ ((((sequenceObservations (List.replicate (2^31 + 1) (0 : Fin 1))).filter
          (fun x => x.1 = (0 : Fin 1))).map Prod.snd).Pairwise (· < ·)) := by
  intro hpw
  have hfilter : (sequenceObservations (List.replicate (2^31 + 1) (0 : Fin 1))).filter
      (fun x => x.1 = (0 : Fin 1))
      = sequenceObservations (List.replicate (2^31 + 1) (0 : Fin 1)) :=
    List.filter_eq_self.mpr (fun a _ => by simp [Subsingleton.elim a.1 0])
  rw [hfilter, sequenceObservations_eq] at hpw
  have hmsz := List.map_snd_zip (List.replicate (2^31 + 1) (0 : Fin 1))
    ((List.range' 1 (List.replicate (2^31 + 1) (0 : Fin 1)).length).map
      (fun m => int32Val (m % 2^32)))
    (by rw [List.length_map, List.length_range'])
  rw [hmsz] at hpw
  have hlenr : (List.replicate (2^31 + 1) (0 : Fin 1)).length = 2^31 + 1 :=
    List.length_replicate _ _
  rw [hlenr] at hpw
  have hLlen : ((List.range' 1 (2^31 + 1)).map (fun m => int32Val (m % 2^32))).length
      = 2^31 + 1 := by
    rw [List.length_map, List.length_range']
  have hi : 2^31 - 2
      < ((List.range' 1 (2^31 + 1)).map (fun m => int32Val (m % 2^32))).length := by
    rw [hLlen]; norm_num
  have hj : 2^31 - 1
      < ((List.range' 1 (2^31 + 1)).map (fun m => int32Val (m % 2^32))).length := by
    rw [hLlen]; norm_num
  have hij : (2:Nat)^31 - 2 < 2^31 - 1 := by norm_num
  have hR := List.pairwise_iff_getElem.mp hpw (2^31 - 2) (2^31 - 1) hi hj hij
  simp only [List.getElem_map, List.getElem_range'_1] at hR
  have e1 : 1 + ((2:Nat)^31 - 2) = 2^31 - 1 := by norm_num
  have e2 : 1 + ((2:Nat)^31 - 1) = 2^31 := by norm_num
  rw [e1, e2] at hR
  have m1 : ((2:Nat)^31 - 1) % 2^32 = 2^31 - 1 := Nat.mod_eq_of_lt (by norm_num)
  have m2 : ((2:Nat)^31) % 2^32 = 2^31 := Nat.mod_eq_of_lt (by norm_num)
  rw [m1, m2, int32Val, int32Val, if_pos (by norm_num), if_neg (by norm_num)] at hR
  norm_num at hR

/-- C9 (amended): as long as the total number of increments stays below
`2^31` — so the signed 32-bit cell never wraps — every interleaving of
the lock-serialized increments hands out pairwise-distinct sequence
numbers (if each of `M` workers takes `K` turns with `M·K < 2^31`, all
`M·K` observed values are distinct), and the subsequence of values
observed by any single worker is strictly increasing. -/
theorem C9_sequence_counter {M K : Nat} (schedule : List (Fin M))
    (hcount : ∀ ww : Fin M, schedule.count ww = K) (hMK : M * K < 2^31) :
    ((sequenceObservations schedule).map Prod.snd).Nodup
      ∧ (sequenceObservations schedule).length = M * K
      ∧ ∀ ww : Fin M,
          (((sequenceObservations schedule).filter
              (fun x => x.1 = ww)).map Prod.snd).Pairwise (· < ·) := by
  have hsum : ∀ l : List (Fin M), l.length = ∑ ww : Fin M, l.count ww := by
    intro l
    induction l with
    | nil => simp
    | cons k ks ih =>
        simp only [List.length_cons, List.count_cons, ih]
        rw [Finset.sum_add_distrib]
        simp
  have hschedlen : schedule.length = M * K := by
    rw [hsum schedule]
    simp [hcount, Finset.sum_const, Finset.card_univ]
  have hn : schedule.length < 2^31 := by rw [hschedlen]; exact hMK
  have hsnd := sequenceObservations_snd schedule hn
  have hpw : ((sequenceObservations schedule).map Prod.snd).Pairwise (· < ·) := by
    rw [hsnd]
    exact (List.pairwise_lt_range' 1 schedule.length).map (Nat.cast : Nat → Int)
      (fun a b h => by exact_mod_cast h)
  refine ⟨hpw.imp (fun h => ne_of_lt h), ?_, ?_⟩
  · have hlen : (sequenceObservations schedule).length = schedule.length := by
      rw [sequenceObservations_eq]
      simp
    rw [hlen, hschedlen]
  · intro ww
    have hsub : List.Sublist
        (((sequenceObservations schedule).filter (fun x => x.1 = ww)).map Prod.snd)
        ((sequenceObservations schedule).map Prod.snd) :=
      (List.filter_sublist _).map Prod.snd
    exact hpw.sublist hsub

/-- Witness for `C9_sequence_counter`: two workers, three turns each,
interleaved, well below the wrap bound. -/
theorem C9_sequence_counter_witness :
    (∀ ww : Fin 2,
        ([0, 1, 0, 1, 0, 1] : List (Fin 2)).count ww = 3)
      ∧ 2 * 3 < 2^31
      ∧ ((sequenceObservations ([0, 1, 0, 1, 0, 1] : List (Fin 2))).map Prod.snd).Nodup
      ∧ (sequenceObservations ([0, 1, 0, 1, 0, 1] : List (Fin 2))).length = 2 * 3 :=
  ⟨by decide,
   by norm_num,
   (@C9_sequence_counter 2 3 [0, 1, 0, 1, 0, 1] (by decide) (by norm_num)).1,
   (@C9_sequence_counter 2 3 [0, 1, 0, 1, 0, 1] (by decide) (by norm_num)).2.1⟩

theorem lexLeChars_total : ∀ a b, lexLeChars a b = true ∨ lexLeChars b a = true := by
  intro a
  induction a with
  | nil => intro b; left; rfl
  | cons c cs ih =>
      intro b
      cases b with
      | nil => right; rfl
      | cons d ds =>
          simp only [lexLeChars]
          rcases Nat.lt_trichotomy c.toNat d.toNat with h | h | h
          · left; simp [h]
          · simp [h, Nat.lt_irrefl]
            exact ih ds
          · right; simp [h, Nat.lt_asymm h]

theorem lexLeChars_trans :
    ∀ a b c, lexLeChars a b = true → lexLeChars b c = true → lexLeChars a c = true := by
  intro a
  induction a with
  | nil => intro b c _ _; rfl
  | cons x xs ih =>
      intro b c hab hbc
      cases b with
      | nil => simp [lexLeChars] at hab
      | cons y ys =>
          cases c with
          | nil => simp [lexLeChars] at hbc
          | cons z zs =>
              simp only [lexLeChars] at hab hbc ⊢
              by_cases hxy : x.toNat < y.toNat
              · by_cases hyz : y.toNat < z.toNat
                · simp [Nat.lt_trans hxy hyz]
                · have hzy : ¬ z.toNat < y.toNat := by
                    intro hzy
                    rw [if_neg hyz, if_pos hzy] at hbc
                    exact Bool.false_ne_true hbc
                  have hxz : x.toNat < z.toNat := by omega
                  simp [hxz]
              · by_cases hyx : y.toNat < x.toNat
                · rw [if_neg hxy, if_pos hyx] at hab
                  exact absurd hab Bool.false_ne_true
                · rw [if_neg hxy, if_neg hyx] at hab
                  by_cases hyz : y.toNat < z.toNat
                  · have hxz : x.toNat < z.toNat := by omega
                    simp [hxz]
                  · have hzy : ¬ z.toNat < y.toNat := by
                      intro hzy
                      rw [if_neg hyz, if_pos hzy] at hbc
                      exact Bool.false_ne_true hbc
                    rw [if_neg hyz, if_neg hzy] at hbc
                    have hxz1 : ¬ x.toNat < z.toNat := by omega
                    have hxz2 : ¬ z.toNat < x.toNat := by omega
                    rw [if_neg hxz1, if_neg hxz2]
                    exact ih ys zs hab hbc

theorem orderedInsertBy_perm (le : α → α → Bool) (x : α) (l : List α) :
    List.Perm (orderedInsertBy le x l) (x :: l) := by
  induction l with
  | nil => exact List.Perm.refl _
  | cons y ys ih =>
      simp only [orderedInsertBy]
      split
      · exact List.Perm.refl _
      · exact (List.Perm.cons y ih).trans (List.Perm.swap x y ys)

theorem sortBy_perm (le : α → α → Bool) (l : List α) :
    List.Perm (sortBy le l) l := by
  induction l with
  | nil => exact List.Perm.refl _
  | cons x xs ih =>
      exact (orderedInsertBy_perm le x (sortBy le xs)).trans (List.Perm.cons x ih)

theorem orderedInsertBy_pairwise (le : α → α → Bool)
    (htot : ∀ a b, le a b = true ∨ le b a = true)
    (htrans : ∀ a b c, le a b = true → le b c = true → le a c = true) (x : α) :
    ∀ l, l.Pairwise (fun a b => le a b = true) →
      (orderedInsertBy le x l).Pairwise (fun a b => le a b = true) := by
  intro l
  induction l with
  | nil =>
      intro _
      exact List.pairwise_singleton _ _
  | cons y ys ih =>
      intro hp
      rcases List.pairwise_cons.mp hp with ⟨hy, hys⟩
      simp only [orderedInsertBy]
      split
      next hxy =>
        refine List.pairwise_cons.mpr ⟨?_, hp⟩
        intro z hz
        rcases List.mem_cons.mp hz with rfl | hz'
        · exact hxy
        · exact htrans x y z hxy (hy z hz')
      next hxy =>
        have hyx : le y x = true := by
          rcases htot x y with h | h
          · exact absurd h hxy
          · exact h
        refine List.pairwise_cons.mpr ⟨?_, ih hys⟩
        intro z hz
        have hz' := (orderedInsertBy_perm le x ys).mem_iff.mp hz
        rcases List.mem_cons.mp hz' with rfl | hz''
        · exact hyx
        · exact hy z hz''

theorem sortBy_pairwise (le : α → α → Bool)
    (htot : ∀ a b, le a b = true ∨ le b a = true)
    (htrans : ∀ a b c, le a b = true → le b c = true → le a c = true) :
    ∀ l : List α, (sortBy le l).Pairwise (fun a b => le a b = true) := by
  intro l
  induction l with
  | nil => exact List.Pairwise.nil
  | cons x xs ih => exact orderedInsertBy_pairwise le htot htrans x _ ih

theorem consolidateLoop_chunk_source :
    ∀ (L : List WorkerFile), ∀ ch ∈ (consolidateLoop L).chunks,
      ∃ g ∈ L, ∃ c, g.read = .ok c ∧ pyStrip c ≠ ""
        ∧ ch = ⟨g.path, workerPid g.path, c, !endsWithNewline c⟩ := by
  intro L
  induction L with
  | nil => simp [consolidateLoop]
  | cons f rest ih =>
      intro ch hch
      simp only [consolidateLoop] at hch
      cases hr : f.read with
      | error e =>
          rw [hr] at hch
          obtain ⟨g, hg, c, h1, h2, h3⟩ := ih ch hch
          exact ⟨g, List.mem_cons_of_mem _ hg, c, h1, h2, h3⟩
      | ok c =>
          rw [hr] at hch
          have hch' : ch ∈ (if pyStrip c = "" then ([] : List MergeChunk)
              else [⟨f.path, workerPid f.path, c, !endsWithNewline c⟩])
              ++ (consolidateLoop rest).chunks := by
            rcases hfr : f.removeFails with _ | _ <;> rw [hfr] at hch <;> exact hch
          rcases List.mem_append.mp hch' with hL | hR
          · by_cases hstr : pyStrip c = ""
            · rw [if_pos hstr] at hL
              simp at hL
            · rw [if_neg hstr] at hL
              refine ⟨f, List.mem_cons_self _ _, c, hr, hstr, ?_⟩
              simpa using hL
          · obtain ⟨g, hg, c', h1, h2, h3⟩ := ih ch hR
            exact ⟨g, List.mem_cons_of_mem _ hg, c', h1, h2, h3⟩

theorem consolidateLoop_chunkPaths_sublist :
    ∀ (L : List WorkerFile),
      List.Sublist ((consolidateLoop L).chunks.map (fun ch => ch.path))
        (L.map (fun f => f.path)) := by
  intro L
  induction L with
  | nil => simp [consolidateLoop]
  | cons f rest ih =>
      simp only [consolidateLoop, List.map_cons]
      cases hr : f.read with
      | error e => exact ih.cons _
      | ok c =>
          have hgoal : List.Sublist
              (((if pyStrip c = "" then ([] : List MergeChunk)
                  else [⟨f.path, workerPid f.path, c, !endsWithNewline c⟩])
                ++ (consolidateLoop rest).chunks).map (fun ch => ch.path))
              (f.path :: rest.map (fun g => g.path)) := by
            by_cases hstr : pyStrip c = ""
            · rw [if_pos hstr]
              simpa using ih.cons _
            · rw [if_neg hstr]
              simpa using ih.cons₂ f.path
          rcases hfr : f.removeFails with _ | _ <;> exact hgoal

theorem consolidateLoop_chunk_count (f : WorkerFile) (c : String)
    (hread : f.read = .ok c) (hne : pyStrip c ≠ "") :
    ∀ L : List WorkerFile, (L.map (fun g => g.path)).Nodup → f ∈ L →
      (consolidateLoop L).chunks.count
        (⟨f.path, workerPid f.path, c, !endsWithNewline c⟩ : MergeChunk) = 1 := by
  intro L
  induction L with
  | nil => intro _ hf; simp at hf
  | cons g rest ih =>
      intro hnd hf
      have hnd' : (rest.map (fun x => x.path)).Nodup :=
        (List.nodup_cons.mp (by simpa using hnd)).2
      have hgp : g.path ∉ rest.map (fun x => x.path) :=
        (List.nodup_cons.mp (by simpa using hnd)).1
      rcases List.mem_cons.mp hf with rfl | hf'
      · -- the head is f itself
        have hrest0 : (consolidateLoop rest).chunks.count
            (⟨f.path, workerPid f.path, c, !endsWithNewline c⟩ : MergeChunk) = 0 := by
          rw [List.count_eq_zero]
          intro hmem
          obtain ⟨g', hg', c', _, _, h3⟩ := consolidateLoop_chunk_source rest _ hmem
          apply hgp
          have : g'.path = f.path := (congrArg MergeChunk.path h3).symm
          rw [← this]
          exact List.mem_map_of_mem _ hg'
        simp only [consolidateLoop, hread]
        have hch : (if pyStrip c = "" then ([] : List MergeChunk)
            else [⟨f.path, workerPid f.path, c, !endsWithNewline c⟩])
            = [⟨f.path, workerPid f.path, c, !endsWithNewline c⟩] := by
          rw [if_neg hne]
        rcases hfr : f.removeFails with _ | _ <;>
          simp [hch, List.count_append, hrest0, List.count_cons]
      · -- f is in the tail
        have hfp : f.path ∈ rest.map (fun x => x.path) := List.mem_map_of_mem _ hf'
        have hne' : g.path ≠ f.path := fun h => hgp (h ▸ hfp)
        have hhead0 : ∀ chL : List MergeChunk,
            (∀ ch ∈ chL, ch.path = g.path) →
            chL.count (⟨f.path, workerPid f.path, c, !endsWithNewline c⟩ : MergeChunk)
              = 0 := by
          intro chL hall
          rw [List.count_eq_zero]
          intro hmem
          have := hall _ hmem
          simp at this
          exact hne' (this ▸ rfl)
        have hih := ih hnd' hf'
        simp only [consolidateLoop]
        cases hr : g.read with
        | error e => simpa using hih
        | ok c' =>
            have hh0 : (if pyStrip c' = "" then ([] : List MergeChunk)
                else [⟨g.path, workerPid g.path, c', !endsWithNewline c'⟩]).count
                (⟨f.path, workerPid f.path, c, !endsWithNewline c⟩ : MergeChunk) = 0 := by
              apply hhead0
              intro ch hch
              by_cases hstr : pyStrip c' = ""
              · rw [if_pos hstr] at hch; simp at hch
              · rw [if_neg hstr] at hch
                simp at hch
                rw [hch]
            rcases hfr : g.removeFails with _ | _ <;>
              simp [List.count_append, hh0, hih]

theorem consolidateLoop_removed_mem (f : WorkerFile) (c : String)
    (hread : f.read = .ok c) (hrm : f.removeFails = false) :
    ∀ L : List WorkerFile, f ∈ L → f.path ∈ (consolidateLoop L).removed := by
  intro L
  induction L with
  | nil => intro hf; simp at hf
  | cons g rest ih =>
      intro hf
      simp only [consolidateLoop]
      rcases List.mem_cons.mp hf with rfl | hf'
      · rw [hread, hrm]
        simp
      · have hih := ih hf'
        cases hr : g.read with
        | error e => simpa using hih
        | ok c' =>
            rcases hfr : g.removeFails with _ | _ <;> simp [hih]

theorem consolidateLoop_removed_source :
    ∀ L : List WorkerFile, ∀ p ∈ (consolidateLoop L).removed,
      ∃ g ∈ L, p = g.path ∧ (∃ c, g.read = .ok c) ∧ g.removeFails = false := by
  intro L
  induction L with
  | nil => simp [consolidateLoop]
  | cons g rest ih =>
      intro p hp
      simp only [consolidateLoop] at hp
      cases hr : g.read with
      | error e =>
          rw [hr] at hp
          obtain ⟨g', h1, h2, h3, h4⟩ := ih p hp
          exact ⟨g', List.mem_cons_of_mem _ h1, h2, h3, h4⟩
      | ok c =>
          rw [hr] at hp
          rcases hfr : g.removeFails with _ | _
          · rw [hfr] at hp
            simp only [if_false] at hp
            rcases List.mem_cons.mp hp with rfl | hp'
            · exact ⟨g, List.mem_cons_self _ _, rfl, ⟨c, hr⟩, hfr⟩
            · obtain ⟨g', h1, h2, h3, h4⟩ := ih p hp'
              exact ⟨g', List.mem_cons_of_mem _ h1, h2, h3, h4⟩
          · rw [hfr] at hp
            simp only [if_true] at hp
            obtain ⟨g', h1, h2, h3, h4⟩ := ih p hp
            exact ⟨g', List.mem_cons_of_mem _ h1, h2, h3, h4⟩

theorem consolidateLoop_error_mem (f : WorkerFile) (e : PyExc)
    (hread : f.read = .error e) :
    ∀ L : List WorkerFile, f ∈ L → f.path ∈ (consolidateLoop L).errors := by
  intro L
  induction L with
  | nil => intro hf; simp at hf
  | cons g rest ih =>
      intro hf
      simp only [consolidateLoop]
      rcases List.mem_cons.mp hf with rfl | hf'
      · rw [hread]
        simp
      · have hih := ih hf'
        cases hr : g.read with
        | error e' => exact List.mem_cons_of_mem _ hih
        | ok c' =>
            rcases hfr : g.removeFails with _ | _ <;> simp [hih]

/-- C10: log consolidation appends worker-log contents in ascending
file-name (worker-identity) order — the appended chunks' source paths are
sorted under Python string comparison; every readable worker file with
non-blank content contributes exactly one chunk, headed by its worker
pid; files with blank content contribute no chunk; every successfully
read file whose removal does not raise is deleted; and a file whose read
raises is reported on the error channel and kept, without the
consolidation itself raising (it is a total function of its inputs). -/
theorem C10_consolidate_logs (files : List WorkerFile)
    (hnd : (files.map (fun f => f.path)).Nodup) :
    ((consolidate_logs files).chunks.map (fun ch => ch.path)).Pairwise
        (fun a b => nameLe a b = true)
      ∧ (∀ f ∈ files, ∀ c, f.read = .ok c → pyStrip c ≠ "" →
          (consolidate_logs files).chunks.count
            (⟨f.path, workerPid f.path, c, !endsWithNewline c⟩ : MergeChunk) = 1)
      ∧ (∀ f ∈ files, ∀ c, f.read = .ok c → pyStrip c = "" →
          ∀ ch ∈ (consolidate_logs files).chunks, ch.path ≠ f.path)
      ∧ (∀ f ∈ files, ∀ c, f.read = .ok c → f.removeFails = false →
          f.path ∈ (consolidate_logs files).removed)
      ∧ (∀ f ∈ files, ∀ e, f.read = .error e →
          f.path ∈ (consolidate_logs files).errors
            ∧ f.path ∉ (consolidate_logs files).removed) := by
  by_cases hE : files.isEmpty
  · have hnil : files = [] := List.isEmpty_iff.mp hE
    subst hnil
    refine ⟨?_, ?_, ?_, ?_, ?_⟩ <;> simp [consolidate_logs]
  · have hEf : files.isEmpty = false := by simpa using hE
    have hC : consolidate_logs files
        = consolidateLoop (sortBy (fun a b => nameLe a.path b.path) files) := by
      simp [consolidate_logs, hEf]
    set sorted := sortBy (fun a b : WorkerFile => nameLe a.path b.path) files with hs
    have hperm : List.Perm sorted files := sortBy_perm _ files
    have hndS : (sorted.map (fun f => f.path)).Nodup :=
      ((hperm.map (fun f => f.path)).nodup_iff).mpr hnd
    have hmemS : ∀ f, f ∈ files → f ∈ sorted := fun f hf => hperm.mem_iff.mpr hf
    have hinj : ∀ x ∈ sorted, ∀ y ∈ sorted, x.path = y.path → x = y :=
      List.inj_on_of_nodup_map hndS
    refine ⟨?_, ?_, ?_, ?_, ?_⟩
    · rw [hC]
      have hsorted : sorted.Pairwise (fun a b => nameLe a.path b.path = true) := by
        rw [hs]
        exact sortBy_pairwise (fun a b : WorkerFile => nameLe a.path b.path)
          (fun a b => lexLeChars_total a.path.data b.path.data)
          (fun a b c h1 h2 => lexLeChars_trans a.path.data b.path.data c.path.data h1 h2)
          files
      have hpaths : (sorted.map (fun f => f.path)).Pairwise (fun a b => nameLe a b = true) :=
        List.pairwise_map.mpr hsorted
      exact hpaths.sublist (consolidateLoop_chunkPaths_sublist sorted)
    · intro f hf c hread hne
      rw [hC]
      exact consolidateLoop_chunk_count f c hread hne sorted hndS (hmemS f hf)
    · intro f hf c hread hstr ch hch heq
      rw [hC] at hch
      obtain ⟨g, hg, c', h1, h2, h3⟩ := consolidateLoop_chunk_source sorted ch hch
      have hgp : g.path = f.path := by
        have := congrArg MergeChunk.path h3
        simp only [] at this
        rw [← this, heq]
      have hgf : g = f := hinj g hg f (hmemS f hf) hgp
      rw [hgf, hread] at h1
      have hc : c' = c := by
        injection h1 with h1'
        exact h1'.symm
      rw [hc] at h2
      exact h2 hstr
    · intro f hf c hread hrm
      rw [hC]
      exact consolidateLoop_removed_mem f c hread hrm sorted (hmemS f hf)
    · intro f hf e hread
      rw [hC]
      refine ⟨consolidateLoop_error_mem f e hread sorted (hmemS f hf), ?_⟩
      intro hmem
      obtain ⟨g, hg, h1, ⟨c, h2⟩, _⟩ := consolidateLoop_removed_source sorted _ hmem
      have hgf : g = f := hinj g hg f (hmemS f hf) h1.symm
      rw [hgf, hread] at h2
      exact Except.noConfusion h2

/-- Witness for `C10_consolidate_logs`: three worker files — one with
content, one blank, one unreadable. -/
theorem C10_consolidate_logs_witness :
    ((([⟨"logs/worker_9.log", .ok "hello", false⟩,
        ⟨"logs/worker_10.log", .ok " ", false⟩,
        ⟨"logs/worker_2.log", .error .unicodeDecodeError, false⟩] :
          List WorkerFile).map (fun f => f.path)).Nodup)
      ∧ (consolidate_logs
          [⟨"logs/worker_9.log", .ok "hello", false⟩,
           ⟨"logs/worker_10.log", .ok " ", false⟩,
           ⟨"logs/worker_2.log", .error .unicodeDecodeError, false⟩]).chunks.count
          (⟨"logs/worker_9.log", workerPid "logs/worker_9.log", "hello",
            !endsWithNewline "hello"⟩ : MergeChunk) = 1
      ∧ "logs/worker_2.log" ∈ (consolidate_logs
          [⟨"logs/worker_9.log", .ok "hello", false⟩,
           ⟨"logs/worker_10.log", .ok " ", false⟩,
           ⟨"logs/worker_2.log", .error .unicodeDecodeError, false⟩]).errors :=
  ⟨by decide,
   (C10_consolidate_logs _ (by decide)).2.1
     ⟨"logs/worker_9.log", .ok "hello", false⟩ (by decide) "hello" (by decide) (by decide),
   ((C10_consolidate_logs _ (by decide)).2.2.2.2
     ⟨"logs/worker_2.log", .error .unicodeDecodeError, false⟩ (by decide)
     .unicodeDecodeError (by decide)).1⟩

end Pipeline
